import Mathlib

/-!
Verification of the acl-api network-policy compilation service.

This file shallowly embeds the parts of the service relevant to the checked
claims: the CIDR negation resolver (`exclude_networks`), the policy expansion
engine (`get_expanded_terms`), the dynamic-policy resolver (`fetch_networks`,
`fetch_terms`), the revision endpoints (`write_revision`, `deploy_revision`),
the test runner (`run_tests`, `get_tests_run`), the network update endpoint,
and the `hashed_name` naming token.  Database rows are modelled as Lean
structures, the database itself as lists of rows, SQL queries as list
operations, and Python recursion that may diverge as fuel-indexed functions
returning `Option` (a `none` result means the recursion did not terminate
within the given stack budget, at any budget for a genuinely divergent call).
-/

set_option maxRecDepth 10000

namespace AclApi

/-! ## IP networks (`ipaddress.ip_network` values)

A CIDR network as used by the service: `version` is 4 or 6, `addr` the
integer network address, `plen` the prefix length. -/

structure IPNet where
  version : Nat
  addr : Nat
  plen : Nat
deriving DecidableEq, Repr

/-- Bit width of the address family: 32 for IPv4, 128 for IPv6. -/
def maxLenOf (n : IPNet) : Nat := if n.version = 4 then 32 else 128

/-- Number of addresses in the network (`2 ^ (width - prefixlen)`). -/
def blockSize (n : IPNet) : Nat := 2 ^ (maxLenOf n - n.plen)

/-- `broadcast_address` as an integer: last address of the block. -/
def broadcastOf (n : IPNet) : Nat := n.addr + blockSize n - 1

/-- Python `a.subnet_of(b)`: same family, and `b.network_address <=
a.network_address and b.broadcast_address >= a.broadcast_address`. -/
def subnetOf (a b : IPNet) : Bool :=
  a.version == b.version && b.addr ≤ a.addr && broadcastOf a ≤ broadcastOf b

/-- Python `n.subnets()` with the default `prefixlen_diff=1`: the two halves
of the block, lower first. -/
def subnets (n : IPNet) : IPNet × IPNet :=
  (⟨n.version, n.addr, n.plen + 1⟩,
   ⟨n.version, n.addr + 2 ^ (maxLenOf n - (n.plen + 1)), n.plen + 1⟩)

/-- The loop of Python `self.address_exclude(other)`: `s1`, `s2` are the two
halves of the block currently being split, `other` the excluded network.
While neither half equals `other`, the half not containing `other` is yielded
and the other half is split further.  The fuel bounds the loop; the source
loop strictly increases the prefix length of `s1`, so `maxLenOf` fuel is
always sufficient for well-formed inputs. -/
def addressExcludeAux (other : IPNet) : IPNet → IPNet → Nat → List IPNet
  | _, _, 0 => []
  | s1, s2, fuel + 1 =>
    if s1 = other then [s2]
    else if s2 = other then [s1]
    else if subnetOf other s1 then
      s2 :: addressExcludeAux other (subnets s1).1 (subnets s1).2 fuel
    else if subnetOf other s2 then
      s1 :: addressExcludeAux other (subnets s2).1 (subnets s2).2 fuel
    else []

/-- Python `self.address_exclude(other)`, materialised as a list.  When
`other` is not a subnet of `self` the source raises `ValueError`; the only
call site (`exclude_networks`) guards the call with `exclude.subnet_of(net)`,
so that branch is modelled by the empty list. -/
def addressExclude (self other : IPNet) : List IPNet :=
  if subnetOf other self = false then []
  else if other = self then []
  else addressExcludeAux other (subnets self).1 (subnets self).2 (maxLenOf self)

/-- `0.0.0.0/0`. -/
def fullV4 : IPNet := ⟨4, 0, 0⟩

/-- `::/0`. -/
def fullV6 : IPNet := ⟨6, 0, 0⟩

/-- Inner update of `exclude_networks`: subtract one excluded network from
every network remaining under one whole-space root. -/
def excludeOne (exclude : IPNet) (nets : List IPNet) : List IPNet :=
  nets.flatMap fun net => if subnetOf exclude net then addressExclude net exclude else [net]

/-- One iteration of the outer loop of `exclude_networks`: for each
whole-space root of the matching family, subtract the excluded network from
its remaining list. -/
def excludeStep (rem : List (IPNet × List IPNet)) (exclude : IPNet) : List (IPNet × List IPNet) :=
  rem.map fun p => if exclude.version = p.1.version then (p.1, excludeOne exclude p.2) else p

/-- `exclude_networks(excluded_networks)` from `core/utils/generate.py`: the
IPv4 root `0.0.0.0/0` (and the IPv6 root `::/0`) is included only when the
excluded list contains a network of that family; each excluded network is
subtracted from the remaining networks of its family; the remaining lists are
flattened in root order. -/
def excludeNetworks (excluded : List IPNet) : List IPNet :=
  let mains :=
    (if excluded.any (fun n => n.version == 4) then [fullV4] else []) ++
    (if excluded.any (fun n => n.version == 6) then [fullV6] else [])
  let remaining := excluded.foldl excludeStep (mains.map fun m => (m, [m]))
  (remaining.map Prod.snd).flatten

/-! Address-set semantics used to state the claims about `exclude_networks`. -/

/-- `x` is one of the addresses of `n`. -/
def memIP (x : Nat) (n : IPNet) : Prop := n.addr ≤ x ∧ x < n.addr + blockSize n

instance (x : Nat) (n : IPNet) : Decidable (memIP x n) := by
  unfold memIP; infer_instance

/-- `x` is covered by some network in the list. -/
def memNets (x : Nat) (L : List IPNet) : Prop := ∃ n ∈ L, memIP x n

instance (x : Nat) (L : List IPNet) : Decidable (memNets x L) := by
  unfold memNets; infer_instance

/-- Well-formed IPv4 network: correct family, prefix in range, aligned
network address inside the 32-bit space. -/
def WF4 (n : IPNet) : Prop :=
  n.version = 4 ∧ n.plen ≤ 32 ∧ 2 ^ (32 - n.plen) ∣ n.addr ∧ n.addr < 2 ^ 32

instance (n : IPNet) : Decidable (WF4 n) := by
  unfold WF4; infer_instance

/-- The two networks share no address. -/
def DisjNet (a b : IPNet) : Prop := ∀ x, ¬ (memIP x a ∧ memIP x b)

theorem blockSize_pos (n : IPNet) : 0 < blockSize n := Nat.pos_pow_of_pos _ (by omega)

theorem memIP_self (n : IPNet) : memIP n.addr n :=
  ⟨Nat.le_refl _, Nat.lt_add_of_pos_right (blockSize_pos n)⟩

theorem WF4.blockSize_eq {n : IPNet} (h : WF4 n) : blockSize n = 2 ^ (32 - n.plen) := by
  simp [blockSize, maxLenOf, h.1]

/-- Membership in an aligned dyadic block is a condition on the quotient. -/
theorem block_div_eq {k x q : Nat} (hk : 0 < k) : x / k = q ↔ k * q ≤ x ∧ x < k * q + k := by
  constructor
  · rintro rfl
    have h1 := Nat.div_add_mod x k
    have h2 := Nat.mod_lt x hk
    omega
  · rintro ⟨hl, hr⟩
    have hc : k * q = q * k := Nat.mul_comm k q
    exact Nat.div_eq_of_lt_le (by omega) (by rw [Nat.succ_mul]; omega)

/-- Membership in a well-formed IPv4 network, phrased through the quotient by
the block size. -/
theorem mem4_iff_div {n : IPNet} (h : WF4 n) (x : Nat) :
    memIP x n ↔ x / 2 ^ (32 - n.plen) = n.addr / 2 ^ (32 - n.plen) := by
  obtain ⟨hv, hp, hd, hb⟩ := h
  obtain ⟨q, hq⟩ := hd
  have hk : 0 < 2 ^ (32 - n.plen) := Nat.pos_pow_of_pos _ (by omega)
  have hbs : blockSize n = 2 ^ (32 - n.plen) := by simp [blockSize, maxLenOf, hv]
  rw [memIP, hbs, hq, Nat.mul_div_cancel_left _ hk, block_div_eq hk]

/-- Two overlapping well-formed IPv4 networks where the second is at least as
coarse: the first is contained in the second. -/
theorem subset_of_overlap {a b : IPNet} (ha : WF4 a) (hb : WF4 b) (hlen : b.plen ≤ a.plen)
    {x : Nat} (hxa : memIP x a) (hxb : memIP x b) : ∀ y, memIP y a → memIP y b := by
  intro y hy
  rw [mem4_iff_div ha] at hxa hy
  rw [mem4_iff_div hb] at hxb ⊢
  have hs : 32 - a.plen ≤ 32 - b.plen := by omega
  have key : ∀ z : Nat, z / 2 ^ (32 - b.plen) = z / 2 ^ (32 - a.plen) / 2 ^ (32 - b.plen - (32 - a.plen)) := by
    intro z
    rw [Nat.div_div_eq_div_mul, ← pow_add]
    congr 2
    omega
  rw [key y, hy, ← hxa, ← key x, hxb]

/-- Two overlapping well-formed IPv4 networks with the same prefix length are
equal. -/
theorem eq_of_overlap_eq_plen {a b : IPNet} (ha : WF4 a) (hb : WF4 b) (hp : a.plen = b.plen)
    {x : Nat} (hxa : memIP x a) (hxb : memIP x b) : a = b := by
  have e1 := (mem4_iff_div ha x).mp hxa
  have e2 := (mem4_iff_div hb x).mp hxb
  rw [hp] at e1
  have e3 : a.addr / 2 ^ (32 - b.plen) = b.addr / 2 ^ (32 - b.plen) := e1.symm.trans e2
  obtain ⟨qa, hqa⟩ := ha.2.2.1
  obtain ⟨qb, hqb⟩ := hb.2.2.1
  rw [hp] at hqa
  have hk : 0 < (2 : Nat) ^ (32 - b.plen) := Nat.pos_pow_of_pos _ (by omega)
  rw [hqa, hqb, Nat.mul_div_cancel_left _ hk, Nat.mul_div_cancel_left _ hk] at e3
  have haddr : a.addr = b.addr := by rw [hqa, hqb, e3]
  have hv : a.version = b.version := by rw [ha.1, hb.1]
  cases a; cases b
  simp_all

/-- `subnet_of` agrees with address-set inclusion on well-formed IPv4
networks. -/
theorem subnetOf_iff {a b : IPNet} (ha : WF4 a) (hb : WF4 b) :
    subnetOf a b = true ↔ ∀ x, memIP x a → memIP x b := by
  have hsa := blockSize_pos a
  have hsb := blockSize_pos b
  constructor
  · intro h x hx
    simp only [subnetOf, Bool.and_eq_true, beq_iff_eq, decide_eq_true_eq] at h
    unfold broadcastOf at h
    unfold memIP at hx ⊢
    omega
  · intro h
    have h1 := h a.addr (memIP_self a)
    have h2 := h (a.addr + blockSize a - 1) ⟨by omega, by omega⟩
    simp only [subnetOf, Bool.and_eq_true, beq_iff_eq, decide_eq_true_eq]
    unfold memIP at h1 h2
    unfold broadcastOf
    refine ⟨⟨by rw [ha.1, hb.1], by omega⟩, by omega⟩

/-- A proper subset among well-formed IPv4 networks has a strictly longer
prefix. -/
theorem plen_lt_of_ssubset {a b : IPNet} (ha : WF4 a) (hb : WF4 b)
    (hsub : ∀ x, memIP x a → memIP x b) (hne : a ≠ b) : b.plen < a.plen := by
  rcases Nat.lt_or_ge b.plen a.plen with h | h
  · exact h
  · exfalso
    have h1 := hsub a.addr (memIP_self a)
    have hba : ∀ y, memIP y b → memIP y a :=
      subset_of_overlap hb ha h h1 (memIP_self a)
    have hpa := blockSize_pos a
    have hpb := blockSize_pos b
    have h2 := hsub (a.addr + blockSize a - 1) ⟨by omega, by omega⟩
    have h3 := hba b.addr (memIP_self b)
    have h4 := hba (b.addr + blockSize b - 1) ⟨by omega, by omega⟩
    have hsz : blockSize a = blockSize b := by
      unfold memIP at h1 h2 h3 h4
      omega
    rw [ha.blockSize_eq, hb.blockSize_eq] at hsz
    have h32a := ha.2.1
    have h32b := hb.2.1
    have := Nat.pow_right_injective (le_refl 2) hsz
    exact hne (eq_of_overlap_eq_plen ha hb (by omega) (memIP_self a) h1)

/-- An aligned block starting below `2 ^ 32` ends at or below `2 ^ 32`. -/
theorem aligned_add_block_le {s a : Nat} (hs : s ≤ 32) (hd : 2 ^ s ∣ a) (hb : a < 2 ^ 32) :
    a + 2 ^ s ≤ 2 ^ 32 := by
  obtain ⟨q, hq⟩ := hd
  have hpow : (2 : Nat) ^ 32 = 2 ^ s * 2 ^ (32 - s) := by
    rw [← pow_add]; congr 1; omega
  have hklt : q < 2 ^ (32 - s) := by
    by_contra hqe
    push_neg at hqe
    have : 2 ^ s * 2 ^ (32 - s) ≤ 2 ^ s * q := Nat.mul_le_mul_left _ hqe
    omega
  have : 2 ^ s * (q + 1) ≤ 2 ^ s * 2 ^ (32 - s) := Nat.mul_le_mul_left _ (by omega)
  rw [Nat.mul_add, Nat.mul_one] at this
  omega

/-- The two halves produced by `subnets` on a splittable well-formed IPv4
network: both well formed, one prefix longer, lower half first, disjoint, and
together exactly the parent block. -/
theorem subnets_spec {n : IPNet} (h : WF4 n) (hp : n.plen < 32) :
    WF4 (subnets n).1 ∧ WF4 (subnets n).2 ∧
    (subnets n).1.plen = n.plen + 1 ∧ (subnets n).2.plen = n.plen + 1 ∧
    (subnets n).2.addr = (subnets n).1.addr + 2 ^ (32 - (n.plen + 1)) ∧
    (∀ x, memIP x n ↔ memIP x (subnets n).1 ∨ memIP x (subnets n).2) ∧
    DisjNet (subnets n).1 (subnets n).2 := by
  obtain ⟨hv, hple, hd, hb⟩ := h
  have hml : maxLenOf n = 32 := by simp [maxLenOf, hv]
  have hhpos : 0 < (2 : Nat) ^ (32 - (n.plen + 1)) := Nat.pos_pow_of_pos _ (by omega)
  have hsplit : (2 : Nat) ^ (32 - n.plen) = 2 ^ (32 - (n.plen + 1)) + 2 ^ (32 - (n.plen + 1)) := by
    have h32 : 32 - n.plen = (32 - (n.plen + 1)) + 1 := by omega
    rw [h32, pow_succ]
    omega
  have hdd : 2 ^ (32 - (n.plen + 1)) ∣ n.addr := dvd_trans (pow_dvd_pow 2 (by omega)) hd
  have hub : n.addr + 2 ^ (32 - n.plen) ≤ 2 ^ 32 := aligned_add_block_le (by omega) hd hb
  have haddr1 : (subnets n).1.addr = n.addr := rfl
  have haddr2 : (subnets n).2.addr = n.addr + 2 ^ (32 - (n.plen + 1)) := by
    show n.addr + 2 ^ (maxLenOf n - (n.plen + 1)) = n.addr + 2 ^ (32 - (n.plen + 1))
    rw [hml]
  have hbs1 : blockSize (subnets n).1 = 2 ^ (32 - (n.plen + 1)) := by
    show (2 : Nat) ^ (maxLenOf (subnets n).1 - (n.plen + 1)) = 2 ^ (32 - (n.plen + 1))
    have hm : maxLenOf (subnets n).1 = 32 := by
      show (if n.version = 4 then 32 else 128) = 32
      rw [hv]
      rfl
    rw [hm]
  have hbs2 : blockSize (subnets n).2 = 2 ^ (32 - (n.plen + 1)) := by
    show (2 : Nat) ^ (maxLenOf (subnets n).2 - (n.plen + 1)) = 2 ^ (32 - (n.plen + 1))
    have hm : maxLenOf (subnets n).2 = 32 := by
      show (if n.version = 4 then 32 else 128) = 32
      rw [hv]
      rfl
    rw [hm]
  have hbsn : blockSize n = 2 ^ (32 - (n.plen + 1)) + 2 ^ (32 - (n.plen + 1)) := by
    rw [blockSize, hml, hsplit]
  refine ⟨⟨hv, by show n.plen + 1 ≤ 32; omega, hdd, hb⟩,
    ⟨hv, by show n.plen + 1 ≤ 32; omega, ?_, ?_⟩, rfl, rfl, haddr2, ?_, ?_⟩
  · show 2 ^ (32 - (n.plen + 1)) ∣ n.addr + 2 ^ (maxLenOf n - (n.plen + 1))
    rw [hml]
    exact dvd_add hdd dvd_rfl
  · show n.addr + 2 ^ (maxLenOf n - (n.plen + 1)) < 2 ^ 32
    rw [hml]
    omega
  · intro x
    unfold memIP
    rw [haddr1, haddr2, hbs1, hbs2, hbsn]
    omega
  · intro x hx
    unfold memIP at hx
    rw [haddr1, haddr2, hbs1, hbs2] at hx
    omega

theorem memNets_cons {x : Nat} {a : IPNet} {L : List IPNet} :
    memNets x (a :: L) ↔ memIP x a ∨ memNets x L := by
  simp [memNets]

theorem memNets_nil {x : Nat} : ¬ memNets x [] := by simp [memNets]

theorem memNets_append {x : Nat} {L M : List IPNet} :
    memNets x (L ++ M) ↔ memNets x L ∨ memNets x M := by
  constructor
  · rintro ⟨n, hn, hm⟩
    rcases List.mem_append.mp hn with h | h
    · exact Or.inl ⟨n, h, hm⟩
    · exact Or.inr ⟨n, h, hm⟩
  · rintro (⟨n, hn, hm⟩ | ⟨n, hn, hm⟩)
    · exact ⟨n, List.mem_append.mpr (Or.inl hn), hm⟩
    · exact ⟨n, List.mem_append.mpr (Or.inr hn), hm⟩

/-- Certificate attached to every network yielded by the exclusion loop: the
network sits beside the excluded network inside a parent block one bit
coarser.  `Cert E m` says some already-processed excluded network witnesses
this for `m`. -/
def Cert (E : List IPNet) (m : IPNet) : Prop :=
  m.plen = 0 ∨
  (1 ≤ m.plen ∧ ∃ e ∈ E, ∃ P : IPNet, WF4 P ∧ P.plen + 1 = m.plen ∧
    (∀ x, memIP x m → memIP x P) ∧ (∀ x, memIP x e → memIP x P) ∧ DisjNet e m)

/-- Full behaviour of the `address_exclude` loop on well-formed sibling
halves: the yielded networks are the parent minus the excluded network,
pairwise disjoint, well formed, and each carries the sibling certificate. -/
theorem addressExcludeAux_spec {other : IPNet} (ho : WF4 other) :
    ∀ fuel s1 s2, WF4 s1 → WF4 s2 →
    s1.plen = s2.plen → 1 ≤ s1.plen →
    s2.addr = s1.addr + 2 ^ (32 - s1.plen) →
    2 ^ (32 - s1.plen + 1) ∣ s1.addr →
    (∀ x, memIP x other → memIP x s1 ∨ memIP x s2) →
    s1.plen ≤ other.plen →
    other.plen - s1.plen < fuel →
    (∀ x, memNets x (addressExcludeAux other s1 s2 fuel) ↔
      ((memIP x s1 ∨ memIP x s2) ∧ ¬ memIP x other)) ∧
    (addressExcludeAux other s1 s2 fuel).Pairwise DisjNet ∧
    (∀ m ∈ addressExcludeAux other s1 s2 fuel, WF4 m) ∧
    (∀ m ∈ addressExcludeAux other s1 s2 fuel, 1 ≤ m.plen ∧ ∃ P : IPNet, WF4 P ∧
      P.plen + 1 = m.plen ∧ (∀ x, memIP x m → memIP x P) ∧
      (∀ x, memIP x other → memIP x P) ∧ DisjNet other m) := by
  intro fuel
  induction fuel with
  | zero => intro s1 s2 _ _ _ _ _ _ _ _ hfuel; omega
  | succ fuel ih =>
    intro s1 s2 hw1 hw2 hp12 hp1 hoff hpar hcov hplen hfuel
    -- the two halves are disjoint and sit inside the parent block
    have hb1 := hw1.blockSize_eq
    have hb2 := hw2.blockSize_eq
    have hbeq : blockSize s1 = blockSize s2 := by rw [hb1, hb2, hp12]
    have hle1 : s1.plen ≤ 32 := hw1.2.1
    have hle2 : s2.plen ≤ 32 := hw2.2.1
    have hlo : other.plen ≤ 32 := ho.2.1
    have hpeq : (2 : Nat) ^ (32 - s2.plen) = 2 ^ (32 - s1.plen) := by rw [hp12]
    have hdisj12 : ∀ x, ¬ (memIP x s1 ∧ memIP x s2) := by
      intro x hx
      unfold memIP at hx
      omega
    -- the parent block certificate shared by both immediate yields
    have hparent : ∃ P : IPNet, WF4 P ∧ P.plen + 1 = s1.plen ∧
        (∀ x, memIP x s1 → memIP x P) ∧ (∀ x, memIP x s2 → memIP x P) := by
      refine ⟨⟨4, s1.addr, s1.plen - 1⟩,
        ⟨rfl, by show s1.plen - 1 ≤ 32; have := hw1.2.1; omega, ?_, hw1.2.2.2⟩,
        by show s1.plen - 1 + 1 = s1.plen; omega, ?_, ?_⟩
      · have hx : 32 - (s1.plen - 1) = 32 - s1.plen + 1 := by omega
        simpa [hx] using hpar
      all_goals
        have hPbs : blockSize ⟨4, s1.addr, s1.plen - 1⟩ = 2 ^ (32 - s1.plen + 1) := by
          show (2 : Nat) ^ (maxLenOf ⟨4, s1.addr, s1.plen - 1⟩ - (s1.plen - 1)) = _
          have hm : maxLenOf (⟨4, s1.addr, s1.plen - 1⟩ : IPNet) = 32 := by
            simp [maxLenOf]
          rw [hm]
          congr 1
          omega
      all_goals
        have hdouble : (2 : Nat) ^ (32 - s1.plen + 1) = 2 ^ (32 - s1.plen) + 2 ^ (32 - s1.plen) := by
          rw [pow_succ]; omega
      · intro x hx
        unfold memIP at hx ⊢
        rw [hb1] at hx
        show s1.addr ≤ x ∧ x < s1.addr + blockSize ⟨4, s1.addr, s1.plen - 1⟩
        rw [hPbs]
        omega
      · intro x hx
        unfold memIP at hx ⊢
        rw [hb2] at hx
        show s1.addr ≤ x ∧ x < s1.addr + blockSize ⟨4, s1.addr, s1.plen - 1⟩
        rw [hPbs]
        omega
    by_cases h1 : s1 = other
    · -- the lower half is exactly the excluded network: yield the upper half
      rw [addressExcludeAux, if_pos h1]
      obtain ⟨P, hPw, hPp, hPs1, hPs2⟩ := hparent
      refine ⟨?_, List.pairwise_singleton _ _, ?_, ?_⟩
      · intro x
        simp only [memNets_cons, memNets_nil, or_false]
        subst h1
        constructor
        · intro hx
          exact ⟨Or.inr hx, fun ho2 => hdisj12 x ⟨ho2, hx⟩⟩
        · rintro ⟨hx | hx, hno⟩
          · exact absurd hx hno
          · exact hx
      · intro m hm
        rw [List.mem_singleton] at hm
        subst hm
        exact hw2
      · intro m hm
        rw [List.mem_singleton] at hm
        subst hm
        refine ⟨by omega, P, hPw, by omega, hPs2, by rw [← h1]; exact hPs1, ?_⟩
        intro x hx
        rw [← h1] at hx
        exact hdisj12 x hx
    · by_cases h2 : s2 = other
      · rw [addressExcludeAux, if_neg h1, if_pos h2]
        obtain ⟨P, hPw, hPp, hPs1, hPs2⟩ := hparent
        refine ⟨?_, List.pairwise_singleton _ _, ?_, ?_⟩
        · intro x
          simp only [memNets_cons, memNets_nil, or_false]
          subst h2
          constructor
          · intro hx
            exact ⟨Or.inl hx, fun ho2 => hdisj12 x ⟨hx, ho2⟩⟩
          · rintro ⟨hx | hx, hno⟩
            · exact hx
            · exact absurd hx hno
        · intro m hm
          rw [List.mem_singleton] at hm
          subst hm
          exact hw1
        · intro m hm
          rw [List.mem_singleton] at hm
          subst hm
          refine ⟨by omega, P, hPw, by omega, hPs1, by rw [← h2]; exact hPs2, ?_⟩
          intro x hx
          rw [← h2] at hx
          exact hdisj12 x ⟨hx.2, hx.1⟩
      · -- `other` is strictly inside one of the halves
        have hselect : (∀ x, memIP x other → memIP x s1) ∨ (∀ x, memIP x other → memIP x s2) := by
          rcases hcov other.addr (memIP_self other) with hx | hx
          · exact Or.inl (subset_of_overlap ho hw1 hplen (memIP_self other) hx)
          · exact Or.inr (subset_of_overlap ho hw2 (hp12 ▸ hplen) (memIP_self other) hx)
        rcases hselect with hsel | hsel
        · -- recurse into the lower half, yield the upper half
          have hsub1 : subnetOf other s1 = true := (subnetOf_iff ho hw1).mpr hsel
          have hlt : s1.plen < other.plen :=
            plen_lt_of_ssubset ho hw1 hsel (fun he => h1 (he ▸ rfl))
          have hplt : s1.plen < 32 := by
            have := ho.2.1
            omega
          obtain ⟨hhw1, hhw2, hhp1, hhp2, hhoff, hhcov, hhdisj⟩ := subnets_spec hw1 hplt
          have harg_par : 2 ^ (32 - (subnets s1).1.plen + 1) ∣ (subnets s1).1.addr := by
            rw [hhp1]
            have hd := hw1.2.2.1
            have he : 32 - (s1.plen + 1) + 1 = 32 - s1.plen := by omega
            rw [he]
            exact hd
          have harg_cov : ∀ x, memIP x other → memIP x (subnets s1).1 ∨ memIP x (subnets s1).2 :=
            fun x hx => (hhcov x).mp (hsel x hx)
          have ihr := ih (subnets s1).1 (subnets s1).2 hhw1 hhw2 (by rw [hhp1, hhp2])
            (by rw [hhp1]; omega) (by rw [hhoff, hhp1]) harg_par harg_cov
            (by rw [hhp1]; omega) (by rw [hhp1]; omega)
          obtain ⟨ihA, ihB, ihC, ihD⟩ := ihr
          rw [addressExcludeAux, if_neg h1, if_neg h2, if_pos hsub1]
          obtain ⟨P, hPw, hPp, hPs1, hPs2⟩ := hparent
          have hrecsub : ∀ x, memNets x (addressExcludeAux other (subnets s1).1 (subnets s1).2 fuel) →
              memIP x s1 := by
            intro x hx
            rw [ihA] at hx
            exact (hhcov x).mpr hx.1
          refine ⟨?_, ?_, ?_, ?_⟩
          · intro x
            rw [memNets_cons, ihA, ← hhcov]
            constructor
            · rintro (hx | ⟨hx, hno⟩)
              · exact ⟨Or.inr hx, fun ho2 => hdisj12 x ⟨hsel x ho2, hx⟩⟩
              · exact ⟨Or.inl hx, hno⟩
            · rintro ⟨hx | hx, hno⟩
              · exact Or.inr ⟨hx, hno⟩
              · exact Or.inl hx
          · rw [List.pairwise_cons]
            refine ⟨?_, ihB⟩
            intro m hm x hx
            exact hdisj12 x ⟨hrecsub x ⟨m, hm, hx.2⟩, hx.1⟩
          · intro m hm
            rcases List.mem_cons.mp hm with hm | hm
            · exact hm ▸ hw2
            · exact ihC m hm
          · intro m hm
            rcases List.mem_cons.mp hm with hm | hm
            · subst hm
              refine ⟨by omega, P, hPw, by omega, hPs2, fun x hx => hPs1 x (hsel x hx), ?_⟩
              intro x hx
              exact hdisj12 x ⟨hsel x hx.1, hx.2⟩
            · exact ihD m hm
        · -- recurse into the upper half, yield the lower half
          have hsub1 : subnetOf other s1 = false := by
            by_contra hc
            rw [Bool.not_eq_false] at hc
            have := (subnetOf_iff ho hw1).mp hc other.addr (memIP_self other)
            exact hdisj12 other.addr ⟨this, hsel other.addr (memIP_self other)⟩
          have hsub2 : subnetOf other s2 = true := (subnetOf_iff ho hw2).mpr hsel
          have hlt : s2.plen < other.plen :=
            plen_lt_of_ssubset ho hw2 hsel (fun he => h2 (he ▸ rfl))
          have hplt : s2.plen < 32 := by
            have := ho.2.1
            omega
          obtain ⟨hhw1, hhw2, hhp1, hhp2, hhoff, hhcov, hhdisj⟩ := subnets_spec hw2 hplt
          have harg_par : 2 ^ (32 - (subnets s2).1.plen + 1) ∣ (subnets s2).1.addr := by
            rw [hhp1]
            have hd := hw2.2.2.1
            have he : 32 - (s2.plen + 1) + 1 = 32 - s2.plen := by omega
            rw [he]
            exact hd
          have harg_cov : ∀ x, memIP x other → memIP x (subnets s2).1 ∨ memIP x (subnets s2).2 :=
            fun x hx => (hhcov x).mp (hsel x hx)
          have ihr := ih (subnets s2).1 (subnets s2).2 hhw1 hhw2 (by rw [hhp1, hhp2])
            (by rw [hhp1]; omega) (by rw [hhoff, hhp1]) harg_par harg_cov
            (by rw [hhp1]; omega) (by rw [hhp1]; omega)
          obtain ⟨ihA, ihB, ihC, ihD⟩ := ihr
          rw [addressExcludeAux, if_neg h1, if_neg h2, if_neg (by simp [hsub1]), if_pos hsub2]
          obtain ⟨P, hPw, hPp, hPs1, hPs2⟩ := hparent
          have hrecsub : ∀ x, memNets x (addressExcludeAux other (subnets s2).1 (subnets s2).2 fuel) →
              memIP x s2 := by
            intro x hx
            rw [ihA] at hx
            exact (hhcov x).mpr hx.1
          refine ⟨?_, ?_, ?_, ?_⟩
          · intro x
            rw [memNets_cons, ihA, ← hhcov]
            constructor
            · rintro (hx | ⟨hx, hno⟩)
              · exact ⟨Or.inl hx, fun ho2 => hdisj12 x ⟨hx, hsel x ho2⟩⟩
              · exact ⟨Or.inr hx, hno⟩
            · rintro ⟨hx | hx, hno⟩
              · exact Or.inl hx
              · exact Or.inr ⟨hx, hno⟩
          · rw [List.pairwise_cons]
            refine ⟨?_, ihB⟩
            intro m hm x hx
            exact hdisj12 x ⟨hx.1, hrecsub x ⟨m, hm, hx.2⟩⟩
          · intro m hm
            rcases List.mem_cons.mp hm with hm | hm
            · exact hm ▸ hw1
            · exact ihC m hm
          · intro m hm
            rcases List.mem_cons.mp hm with hm | hm
            · subst hm
              refine ⟨by omega, P, hPw, by omega, hPs1, fun x hx => hPs2 x (hsel x hx), ?_⟩
              intro x hx
              exact hdisj12 x ⟨hx.2, hsel x hx.1⟩
            · exact ihD m hm

theorem DisjNet.symm {a b : IPNet} (h : DisjNet a b) : DisjNet b a :=
  fun x hx => h x ⟨hx.2, hx.1⟩

theorem Cert.mono {done : List IPNet} {e m : IPNet} (h : Cert done m) : Cert (done ++ [e]) m := by
  rcases h with h | ⟨hp, e0, he0, rest⟩
  · exact Or.inl h
  · exact Or.inr ⟨hp, e0, List.mem_append.mpr (Or.inl he0), rest⟩

/-- Specification of `address_exclude` under the guard used at its call site:
the result is the minuend minus the excluded network, as a disjoint list of
well-formed CIDRs, each of which carries the sibling certificate. -/
theorem addressExclude_spec {self other : IPNet} (hs : WF4 self) (ho : WF4 other)
    (hsub : subnetOf other self = true) (hne : other ≠ self) :
    (∀ x, memNets x (addressExclude self other) ↔ (memIP x self ∧ ¬ memIP x other)) ∧
    (addressExclude self other).Pairwise DisjNet ∧
    (∀ m ∈ addressExclude self other, WF4 m) ∧
    (∀ m ∈ addressExclude self other, 1 ≤ m.plen ∧ ∃ P : IPNet, WF4 P ∧
      P.plen + 1 = m.plen ∧ (∀ x, memIP x m → memIP x P) ∧
      (∀ x, memIP x other → memIP x P) ∧ DisjNet other m) := by
  have hosub : ∀ x, memIP x other → memIP x self := (subnetOf_iff ho hs).mp hsub
  have hlt : self.plen < other.plen := plen_lt_of_ssubset ho hs hosub hne
  have hplt : self.plen < 32 := by
    have := ho.2.1
    omega
  obtain ⟨hhw1, hhw2, hhp1, hhp2, hhoff, hhcov, hhdisj⟩ := subnets_spec hs hplt
  have harg_par : 2 ^ (32 - (subnets self).1.plen + 1) ∣ (subnets self).1.addr := by
    rw [hhp1]
    have hd := hs.2.2.1
    have he : 32 - (self.plen + 1) + 1 = 32 - self.plen := by omega
    rw [he]
    exact hd
  have harg_cov : ∀ x, memIP x other → memIP x (subnets self).1 ∨ memIP x (subnets self).2 :=
    fun x hx => (hhcov x).mp (hosub x hx)
  have hml : maxLenOf self = 32 := by simp [maxLenOf, hs.1]
  obtain ⟨hA, hB, hC, hD⟩ := addressExcludeAux_spec ho (maxLenOf self)
    (subnets self).1 (subnets self).2 hhw1 hhw2 (by rw [hhp1, hhp2])
    (by rw [hhp1]; omega) (by rw [hhoff, hhp1]) harg_par harg_cov
    (by rw [hhp1]; omega) (by rw [hhp1, hml]; have := ho.2.1; omega)
  have hres : addressExclude self other =
      addressExcludeAux other (subnets self).1 (subnets self).2 (maxLenOf self) := by
    unfold addressExclude
    rw [hsub, if_neg (by simp), if_neg hne]
  rw [hres]
  refine ⟨?_, hB, hC, hD⟩
  intro x
  rw [hA x, ← hhcov x]

/-- If a remaining network `m` carries a certificate over already-processed
exclusions that are all disjoint from `e`, then any overlap of `e` with `m`
forces `e` to be a subnet of `m` (nothing remaining is strictly inside `e`). -/
theorem no_strict_inside {done : List IPNet} {m e : IPNet} (hm : WF4 m) (he : WF4 e)
    (hcert : Cert done m) (hdisj : ∀ d ∈ done, DisjNet e d)
    {x : Nat} (hxm : memIP x m) (hxe : memIP x e) : subnetOf e m = true := by
  rcases le_or_lt m.plen e.plen with h | h
  · exact (subnetOf_iff he hm).mpr (subset_of_overlap he hm h hxe hxm)
  · exfalso
    rcases hcert with h0 | ⟨hp1, e0, he0mem, P, hPw, hPp, hmP, he0P, hde0m⟩
    · omega
    · have hPe : ∀ y, memIP y P → memIP y e :=
        subset_of_overlap hPw he (by omega) (hmP x hxm) hxe
      exact hdisj e0 he0mem e0.addr
        ⟨hPe e0.addr (he0P e0.addr (memIP_self e0)), memIP_self e0⟩

/-- One pass of `exclude_networks` over the remaining list: subtracting a
fresh excluded network `e` (disjoint from everything already processed)
removes exactly the addresses of `e` and preserves the invariants. -/
theorem excludeOne_spec {done : List IPNet} {e : IPNet} (he : WF4 e)
    (hdone : ∀ d ∈ done, DisjNet e d) :
    ∀ rem, (∀ m ∈ rem, WF4 m) → rem.Pairwise DisjNet → (∀ m ∈ rem, Cert done m) →
    (∀ x, memNets x (excludeOne e rem) ↔ (memNets x rem ∧ ¬ memIP x e)) ∧
    (excludeOne e rem).Pairwise DisjNet ∧
    (∀ m ∈ excludeOne e rem, WF4 m) ∧
    (∀ m ∈ excludeOne e rem, Cert (done ++ [e]) m) := by
  intro rem
  induction rem with
  | nil =>
    intro _ _ _
    refine ⟨?_, ?_, ?_, ?_⟩ <;> simp [excludeOne, memNets]
  | cons m rest ih =>
    intro hw hpw hcerts
    have hwm := hw m (List.mem_cons_self m rest)
    have hwrest : ∀ n ∈ rest, WF4 n := fun n hn => hw n (List.mem_cons_of_mem m hn)
    have hpwrest : rest.Pairwise DisjNet := (List.pairwise_cons.mp hpw).2
    have hmdisj : ∀ n ∈ rest, DisjNet m n := (List.pairwise_cons.mp hpw).1
    have hcertsrest : ∀ n ∈ rest, Cert done n := fun n hn => hcerts n (List.mem_cons_of_mem m hn)
    obtain ⟨ihA, ihB, ihC, ihD⟩ := ih hwrest hpwrest hcertsrest
    have hcons : excludeOne e (m :: rest) =
        (if subnetOf e m then addressExclude m e else [m]) ++ excludeOne e rest := by
      simp [excludeOne]
    have hrecsub : ∀ x, memNets x (excludeOne e rest) → memNets x rest :=
      fun x hx => ((ihA x).mp hx).1
    by_cases hsm : subnetOf e m = true
    · by_cases heq : e = m
      · -- the excluded network equals this remaining network: it vanishes
        have hdrop : addressExclude m e = [] := by
          unfold addressExclude
          rw [hsm, if_neg (by simp), if_pos heq]
        rw [hcons, if_pos hsm, hdrop, List.nil_append]
        refine ⟨?_, ihB, ihC, ihD⟩
        intro x
        rw [ihA x, memNets_cons]
        subst heq
        constructor
        · rintro ⟨hx, hno⟩
          exact ⟨Or.inr hx, hno⟩
        · rintro ⟨hx | hx, hno⟩
          · exact absurd hx hno
          · exact ⟨hx, hno⟩
      · obtain ⟨eA, eB, eC, eD⟩ := addressExclude_spec hwm he hsm heq
        rw [hcons, if_pos hsm]
        have hpartsub : ∀ x, memNets x (addressExclude m e) → memIP x m :=
          fun x hx => ((eA x).mp hx).1
        refine ⟨?_, ?_, ?_, ?_⟩
        · intro x
          rw [memNets_append, eA x, ihA x, memNets_cons]
          constructor
          · rintro (⟨hx, hno⟩ | ⟨hx, hno⟩)
            · exact ⟨Or.inl hx, hno⟩
            · exact ⟨Or.inr hx, hno⟩
          · rintro ⟨hx | hx, hno⟩
            · exact Or.inl ⟨hx, hno⟩
            · exact Or.inr ⟨hx, hno⟩
        · rw [List.pairwise_append]
          refine ⟨eB, ihB, ?_⟩
          intro a ha b hb x hx
          have hxm : memIP x m := hpartsub x ⟨a, ha, hx.1⟩
          rcases hrecsub x ⟨b, hb, hx.2⟩ with ⟨n, hn, hxn⟩
          exact hmdisj n hn x ⟨hxm, hxn⟩
        · intro n hn
          rcases List.mem_append.mp hn with hn | hn
          · exact eC n hn
          · exact ihC n hn
        · intro n hn
          rcases List.mem_append.mp hn with hn | hn
          · obtain ⟨hp, P, hPw, hPp, hmp, hep, hdm⟩ := eD n hn
            exact Or.inr ⟨hp, e, List.mem_append.mpr (Or.inr (List.mem_singleton.mpr rfl)),
              P, hPw, hPp, hmp, hep, hdm⟩
          · exact ihD n hn
    · -- `e` does not overlap this remaining network at all
      rw [hcons, if_neg (by simp [hsm])]
      have hnooverlap : ∀ x, memIP x m → ¬ memIP x e := by
        intro x hxm hxe
        exact hsm (no_strict_inside hwm he (hcerts m (List.mem_cons_self m rest)) hdone hxm hxe)
      refine ⟨?_, ?_, ?_, ?_⟩
      · intro x
        rw [List.singleton_append, memNets_cons, ihA x, memNets_cons]
        constructor
        · rintro (hx | ⟨hx, hno⟩)
          · exact ⟨Or.inl hx, hnooverlap x hx⟩
          · exact ⟨Or.inr hx, hno⟩
        · rintro ⟨hx | hx, hno⟩
          · exact Or.inl hx
          · exact Or.inr ⟨hx, hno⟩
      · rw [List.singleton_append, List.pairwise_cons]
        refine ⟨?_, ihB⟩
        intro b hb x hx
        rcases hrecsub x ⟨b, hb, hx.2⟩ with ⟨n, hn, hxn⟩
        exact hmdisj n hn x ⟨hx.1, hxn⟩
      · intro n hn
        rw [List.singleton_append] at hn
        rcases List.mem_cons.mp hn with hn | hn
        · exact hn ▸ hwm
        · exact ihC n hn
      · intro n hn
        rw [List.singleton_append] at hn
        rcases List.mem_cons.mp hn with hn | hn
        · exact hn ▸ Cert.mono (hcerts m (List.mem_cons_self m rest))
        · exact ihD n hn

/-- Invariant of the outer loop of `exclude_networks` over one whole-space
root: after processing `done` and with `rem` the networks remaining, folding
the still-unprocessed exclusions removes exactly their addresses. -/
theorem exclude_fold_spec :
    ∀ (E done rem : List IPNet),
    (∀ e ∈ E, WF4 e) → (∀ e ∈ E, ∀ d ∈ done, DisjNet e d) → E.Pairwise DisjNet →
    (∀ m ∈ rem, WF4 m) → rem.Pairwise DisjNet → (∀ m ∈ rem, Cert done m) →
    (∀ x, memNets x rem ↔ (x < 2 ^ 32 ∧ ¬ memNets x done)) →
    (∀ x, memNets x (E.foldl (fun acc e => excludeOne e acc) rem) ↔
      (x < 2 ^ 32 ∧ ¬ memNets x (done ++ E))) ∧
    (E.foldl (fun acc e => excludeOne e acc) rem).Pairwise DisjNet ∧
    (∀ m ∈ E.foldl (fun acc e => excludeOne e acc) rem, WF4 m) := by
  intro E
  induction E with
  | nil =>
    intro done rem _ _ _ hw hpw _ hcov
    refine ⟨?_, hpw, hw⟩
    intro x
    rw [List.foldl_nil, hcov x, List.append_nil]
  | cons e E ih =>
    intro done rem hEw hEdone hEpw hw hpw hcerts hcov
    have he : WF4 e := hEw e (List.mem_cons_self e E)
    have hdone : ∀ d ∈ done, DisjNet e d := hEdone e (List.mem_cons_self e E)
    obtain ⟨sA, sB, sC, sD⟩ := excludeOne_spec he hdone rem hw hpw hcerts
    rw [List.foldl_cons]
    have hnewcov : ∀ x, memNets x (excludeOne e rem) ↔
        (x < 2 ^ 32 ∧ ¬ memNets x (done ++ [e])) := by
      intro x
      rw [sA x, hcov x, memNets_append]
      have hsing : memNets x [e] ↔ memIP x e := by simp [memNets]
      rw [hsing]
      tauto
    have hres := ih (done ++ [e]) (excludeOne e rem)
      (fun a ha => hEw a (List.mem_cons_of_mem e ha))
      (fun a ha d hd => by
        rcases List.mem_append.mp hd with hd | hd
        · exact hEdone a (List.mem_cons_of_mem e ha) d hd
        · rw [List.mem_singleton] at hd
          exact hd ▸ ((List.pairwise_cons.mp hEpw).1 a ha).symm)
      (List.pairwise_cons.mp hEpw).2 sC sB sD hnewcov
    have happ : done ++ e :: E = (done ++ [e]) ++ E := by simp
    rw [happ]
    exact hres

/-- The outer loop of `exclude_networks` specialised to an all-IPv4 excluded
list: the root dictionary is the single entry for `0.0.0.0/0`. -/
theorem excludeStep_fold_v4 (E : List IPNet) (hE : ∀ e ∈ E, e.version = 4) (l : List IPNet) :
    E.foldl excludeStep [(fullV4, l)] =
      [(fullV4, E.foldl (fun acc e => excludeOne e acc) l)] := by
  induction E generalizing l with
  | nil => rfl
  | cons e E ih =>
    have hv : e.version = 4 := hE e (List.mem_cons_self e E)
    rw [List.foldl_cons, List.foldl_cons]
    have hstep : excludeStep [(fullV4, l)] e = [(fullV4, excludeOne e l)] := by
      simp [excludeStep, fullV4, hv]
    rw [hstep]
    exact ih (fun a ha => hE a (List.mem_cons_of_mem e ha)) _

theorem memIP_fullV4 (x : Nat) : memIP x fullV4 ↔ x < 2 ^ 32 := by
  unfold memIP fullV4 blockSize maxLenOf
  simp

theorem excludeNetworks_v4_eq {E : List IPNet} (hne : E ≠ []) (hv : ∀ e ∈ E, e.version = 4) :
    excludeNetworks E = E.foldl (fun acc e => excludeOne e acc) [fullV4] := by
  obtain ⟨e, E2, rfl⟩ : ∃ e E2, E = e :: E2 := by
    cases E with
    | nil => exact absurd rfl hne
    | cons a l => exact ⟨a, l, rfl⟩
  have h4 : (e :: E2).any (fun n => n.version == 4) = true := by
    simp only [List.any_eq_true]
    exact ⟨e, List.mem_cons_self e E2, by simp [hv e (List.mem_cons_self e E2)]⟩
  have h6 : (e :: E2).any (fun n => n.version == 6) = false := by
    simp only [List.any_eq_false]
    intro a ha
    simp [hv a ha]
  unfold excludeNetworks
  rw [h4, h6, if_pos rfl, if_neg (by simp)]
  simp only [List.append_nil, List.map_cons, List.map_nil]
  rw [excludeStep_fold_v4 _ hv]
  simp

theorem WF4_fullV4 : WF4 fullV4 := by decide

/-- C4 (amended: the excluded set must be non-empty; `exclude_networks`
returns `[]` on an empty input because it then adds no whole-space root).
For a non-empty list of pairwise-disjoint well-formed IPv4 networks `E`, the
result of `exclude_networks E` covers, inside the IPv4 address space, exactly
the addresses not covered by `E` (so the two together partition
`0.0.0.0/0`), stays inside the space, and is a flat list of pairwise
non-overlapping well-formed CIDRs. -/
theorem exclude_networks_partitions_v4 (E : List IPNet) (hne : E ≠ [])
    (hwf : ∀ e ∈ E, WF4 e) (hdisj : E.Pairwise DisjNet) :
    (∀ x, x < 2 ^ 32 → (memNets x (excludeNetworks E) ↔ ¬ memNets x E)) ∧
    (∀ x, memNets x (excludeNetworks E) → x < 2 ^ 32) ∧
    (∀ x, memNets x E → x < 2 ^ 32) ∧
    (excludeNetworks E).Pairwise DisjNet ∧
    (∀ n ∈ excludeNetworks E, WF4 n) := by
  have hv : ∀ e ∈ E, e.version = 4 := fun e he => (hwf e he).1
  rw [excludeNetworks_v4_eq hne hv]
  obtain ⟨fA, fB, fC⟩ := exclude_fold_spec E [] [fullV4] hwf
    (fun e _ d hd => absurd hd (List.not_mem_nil d))
    hdisj
    (by
      intro m hm
      rw [List.mem_singleton] at hm
      exact hm ▸ WF4_fullV4)
    (List.pairwise_singleton _ _)
    (by
      intro m hm
      rw [List.mem_singleton] at hm
      exact hm ▸ Or.inl rfl)
    (by
      intro x
      simp [memNets, memIP_fullV4 x])
  rw [List.nil_append] at fA
  refine ⟨?_, ?_, ?_, fB, fC⟩
  · intro x hx
    rw [fA x]
    tauto
  · intro x hx
    exact ((fA x).mp hx).1
  · intro x hx
    obtain ⟨n, hn, hxn⟩ := hx
    obtain ⟨hv4, hple, hdvd, hlt⟩ := hwf n hn
    have hbs : blockSize n = 2 ^ (32 - n.plen) := by simp [blockSize, maxLenOf, hv4]
    have := aligned_add_block_le (s := 32 - n.plen) (by omega) hdvd hlt
    unfold memIP at hxn
    omega

/-- C4 counterexample input: the empty excluded set (vacuously pairwise
disjoint) yields an empty result, so the disjoint union with the excluded
set misses every IPv4 address, e.g. address `0`. -/
theorem c4_counterexample :
    ([] : List IPNet).Pairwise DisjNet ∧
    excludeNetworks ([] : List IPNet) = [] ∧
    memIP 0 fullV4 ∧
    ¬ memNets 0 (excludeNetworks ([] : List IPNet)) ∧
    ¬ memNets 0 ([] : List IPNet) :=
  ⟨List.Pairwise.nil, rfl, by decide, by decide, by decide⟩

/-- Concrete network list used to witness the C4 theorem: `{10.0.0.0/8}`. -/
def c4E : List IPNet := [⟨4, 167772160, 8⟩]

theorem c4_witness :
    (c4E ≠ [] ∧ (∀ e ∈ c4E, WF4 e) ∧ c4E.Pairwise DisjNet) ∧
    ((∀ x, x < 2 ^ 32 → (memNets x (excludeNetworks c4E) ↔ ¬ memNets x c4E)) ∧
     (∀ x, memNets x (excludeNetworks c4E) → x < 2 ^ 32) ∧
     (∀ x, memNets x c4E → x < 2 ^ 32) ∧
     (excludeNetworks c4E).Pairwise DisjNet ∧
     (∀ n ∈ excludeNetworks c4E, WF4 n)) :=
  ⟨⟨by simp [c4E], by decide, List.pairwise_singleton _ _⟩,
   exclude_networks_partitions_v4 c4E (by simp [c4E]) (by decide) (List.pairwise_singleton _ _)⟩

/-! ## Data model

Rows of the relational store (`app/models/…`), modelled as structures.
Many-to-many relationships and foreign keys are modelled by lists of ids;
loaded ordered relationships (`Policy.terms`, `Network.addresses`,
`Test.cases`, `Revision.configs`) are modelled by nested lists, ordered as
the ORM loads them (`lex_order` for terms). -/

/-- `PolicyActionEnum` (also `DynamicPolicyFilterActionEnum`, which has the
same five values). -/
inductive PolicyAction where
  | accept
  | deny
  | next
  | reject
  | reject_with_tcp_rst
deriving DecidableEq, Repr

/-- `DynamicPolicyDefaultActionEnum`. -/
inductive DefaultAction where
  | accept
  | accept_log
  | deny
  | deny_log
deriving DecidableEq, Repr

/-- `DeployerModeEnum` (`app/schemas/deployer.py`): the API validates the
`mode` column to one of these three values. -/
inductive DeployerMode where
  | git
  | netmiko
  | proxmox_nft
deriving DecidableEq, Repr

/-- `NetworkAddress` row: either a literal CIDR or a reference to a nested
network. -/
structure NetworkAddress where
  id : Nat
  network_id : Nat
  address : Option IPNet
  comment : Option String
  nested_network_id : Option Nat
deriving DecidableEq, Repr

/-- `Network` row with its loaded `addresses` relationship. -/
structure Network where
  id : Nat
  name : String
  addresses : List NetworkAddress
deriving DecidableEq, Repr

/-- `PolicyTerm` row.  The `source_networks`/`destination_networks`
association lists are modelled by the referenced network ids, which is all
the resolver logic consults. -/
structure PolicyTerm where
  id : Nat
  policy_id : Nat
  name : String
  enabled : Bool
  action : PolicyAction
  logging : Bool
  source_networks : List Nat
  destination_networks : List Nat
  source_services : List Nat
  destination_services : List Nat
  negate_source_networks : Bool
  negate_destination_networks : Bool
  nested_policy_id : Option Nat
deriving DecidableEq, Repr

/-- `Policy` row with its loaded `terms` relationship (ordered by
`lex_order`) and its test/target association id lists. -/
structure Policy where
  id : Nat
  name : String
  comment : Option String
  terms : List PolicyTerm
  tests : List Nat
  targets : List Nat
deriving DecidableEq, Repr

/-- `DynamicPolicy` row. -/
structure DynamicPolicy where
  id : Nat
  name : String
  edited : Bool
  filter_action : Option PolicyAction
  default_action : Option DefaultAction
  source_filters : List Nat
  destination_filters : List Nat
  policy_filters : List Nat
  targets : List Nat
  tests : List Nat
deriving DecidableEq, Repr

/-- `TestCase` row: the 5-tuple fields are `None` for "any". -/
structure TestCase where
  id : Nat
  test_id : Nat
  name : String
  expected_action : PolicyAction
  source_network : Option String
  destination_network : Option String
  source_port : Option Nat
  destination_port : Option Nat
  protocol : Option String
deriving DecidableEq, Repr

/-- `Test` row with its loaded `cases` relationship. -/
structure Test where
  id : Nat
  name : String
  cases : List TestCase
deriving DecidableEq, Repr

/-- `Target` row (only the fields the verified paths consult). -/
structure Target where
  id : Nat
  name : String
deriving DecidableEq, Repr

/-- `Deployer` row. -/
structure Deployer where
  id : Nat
  name : String
  mode : DeployerMode
  target_id : Nat
deriving DecidableEq, Repr

/-- Deployment status strings used by the dispatcher and workers. -/
inductive DeployStatus where
  | pending
  | running
  | completed
  | failed
deriving DecidableEq, Repr

/-- `Deployment` row. -/
structure Deployment where
  id : Nat
  deployer_id : Nat
  revision_id : Nat
  status : DeployStatus
deriving DecidableEq, Repr

/-- `RevisionConfig` row. -/
structure RevisionConfig where
  revision_id : Nat
  target_id : Nat
  filter_name : String
  config : String
deriving DecidableEq, Repr

/-- `Revision` row.  The pydantic read schemas (`PolicyRevisionRead`,
`DynamicPolicyRevisionRead`) document the frozen `json_data` and
`expanded_terms` snapshots; the snapshots are modelled by the policy id and
the expanded term list themselves rather than JSON text. -/
structure Revision where
  id : Nat
  comment : Option String
  policy_id : Option Nat
  dynamic_policy_id : Option Nat
  expanded_terms : List PolicyTerm
  configs : List RevisionConfig
deriving DecidableEq, Repr

/-- The relational store, with id sequences for rows created by the
verified endpoints. -/
structure DB where
  networks : List Network
  policies : List Policy
  dynamic_policies : List DynamicPolicy
  tests : List Test
  targets : List Target
  deployers : List Deployer
  revisions : List Revision
  deployments : List Deployment
  next_revision_id : Nat
  next_deployment_id : Nat
deriving DecidableEq, Repr

/-- `select(Policy).where(Policy.id == pid)` … `one_or_none()`. -/
def findPolicy (db : DB) (pid : Nat) : Option Policy :=
  db.policies.find? (fun p => p.id == pid)

/-- `select(DynamicPolicy).where(DynamicPolicy.id == did)` … `one_or_none()`. -/
def findDynamicPolicy (db : DB) (did : Nat) : Option DynamicPolicy :=
  db.dynamic_policies.find? (fun p => p.id == did)

/-- `select(Network).where(Network.id == nid)` … `one_or_none()`. -/
def findNetwork (db : DB) (nid : Nat) : Option Network :=
  db.networks.find? (fun n => n.id == nid)

/-- `revision_crud.get`. -/
def findRevision (db : DB) (rid : Nat) : Option Revision :=
  db.revisions.find? (fun r => r.id == rid)

/-- The whole `network_addresses` table. -/
def allAddresses (db : DB) : List NetworkAddress :=
  db.networks.flatMap (fun n => n.addresses)

/-- The tests associated to a policy (`policy.tests`). -/
def testsOf (db : DB) (ids : List Nat) : List Test :=
  db.tests.filter (fun t => ids.contains t.id)

/-- Python `str.startswith`, expressed on the character lists of the two
strings. -/
def strStartsWith (s pre : String) : Bool :=
  pre.data.isPrefixOf s.data

/-- Python `str.replace` for a single-character pattern: replace every
occurrence of character `a` by `b`. -/
def replaceChar (s : String) (a b : Char) : String :=
  ⟨s.data.map (fun c => if c = a then b else c)⟩

/-- `valid_name` of a policy: name with spaces replaced by dashes. -/
def policyValidName (p : Policy) : String :=
  replaceChar p.name ' ' '-'

/-- `valid_name` of a term: owning policy's valid name, a dash, then the
term name with spaces replaced by dashes. -/
def termValidName (db : DB) (t : PolicyTerm) : String :=
  (match findPolicy db t.policy_id with
   | some p => policyValidName p
   | none => "") ++ "-" ++ replaceChar t.name ' ' '-'

/-! ## Expansion engine (`get_expanded_terms`, `core/utils/generate.py`)

The Python function recurses into each nested policy with no visited set;
the fuel counts the recursion depth available (one unit per nested
expansion, exactly the Python stack frames), and `none` means the call did
not return at that depth.  A nested policy id that resolves to no policy is
skipped (`continue`), other terms are appended in order. -/

/-- The for-loop body of one `get_expanded_terms` frame: walk the term
list, splicing in the expansion of each nested policy (computed by
`expandNested`, the recursive call one stack level deeper). -/
def expandTermsAux (db : DB) (expandNested : List PolicyTerm → Option (List PolicyTerm)) :
    List PolicyTerm → Option (List PolicyTerm)
  | [] => some []
  | t :: rest =>
    match t.nested_policy_id with
    | some pid =>
      match findPolicy db pid with
      | none => expandTermsAux db expandNested rest
      | some p =>
        match expandNested p.terms, expandTermsAux db expandNested rest with
        | some nested, some tail => some (nested ++ tail)
        | _, _ => none
    | none =>
      match expandTermsAux db expandNested rest with
      | some tail => some (t :: tail)
      | _ => none

def getExpandedTerms (db : DB) : Nat → List PolicyTerm → Option (List PolicyTerm)
  | 0, _ => none
  | fuel + 1, terms => expandTermsAux db (getExpandedTerms db fuel) terms

theorem getExpandedTerms_succ (db : DB) (fuel : Nat) (terms : List PolicyTerm) :
    getExpandedTerms db (fuel + 1) terms =
      expandTermsAux db (getExpandedTerms db fuel) terms := rfl

/-- The inline-splice expansion relation, following the specification: a
leaf term stays in place, a nested term is replaced by the expansion of its
policy's terms in position order, and an unresolvable nested id is dropped. -/
inductive Expands (db : DB) : List PolicyTerm → List PolicyTerm → Prop where
  | nil : Expands db [] []
  | leaf {t : PolicyTerm} {rest out : List PolicyTerm} :
      t.nested_policy_id = none → Expands db rest out → Expands db (t :: rest) (t :: out)
  | nestedMissing {t : PolicyTerm} {rest out : List PolicyTerm} {pid : Nat} :
      t.nested_policy_id = some pid → findPolicy db pid = none →
      Expands db rest out → Expands db (t :: rest) out
  | nested {t : PolicyTerm} {rest inner out : List PolicyTerm} {pid : Nat} {p : Policy} :
      t.nested_policy_id = some pid → findPolicy db pid = some p →
      Expands db p.terms inner → Expands db rest out →
      Expands db (t :: rest) (inner ++ out)

/-- Rank check over the whole policy table: every resolvable nested
reference strictly decreases the rank (an acyclicity certificate). -/
def checkRank (db : DB) (rank : Nat → Nat) : Bool :=
  db.policies.all fun p => p.terms.all fun t =>
    match t.nested_policy_id with
    | none => true
    | some pid =>
      match findPolicy db pid with
      | none => true
      | some q => decide (rank q.id < rank p.id)

/-- Rank bound for one term: its resolvable nested reference (if any) has
rank below the bound. -/
def termRankOk (db : DB) (rank : Nat → Nat) (bound : Nat) (t : PolicyTerm) : Bool :=
  match t.nested_policy_id with
  | none => true
  | some pid =>
    match findPolicy db pid with
    | none => true
    | some q => decide (rank q.id < bound)

theorem findPolicy_mem {db : DB} {pid : Nat} {p : Policy} (h : findPolicy db pid = some p) :
    p ∈ db.policies :=
  List.mem_of_find?_eq_some h

/-- Core induction for C3: with a rank certificate, expansion terminates
within fuel one more than the rank bound of the input list, and the result
is the inline splice, containing only leaf terms. -/
theorem expand_rank_terminates (db : DB) (rank : Nat → Nat)
    (hrank : checkRank db rank = true) :
    ∀ f L, (∀ t ∈ L, termRankOk db rank f t = true) →
    ∃ res, getExpandedTerms db (f + 1) L = some res ∧ Expands db L res ∧
      ∀ t ∈ res, t.nested_policy_id = none := by
  intro f
  induction f using Nat.strong_induction_on with
  | _ f ihf =>
    intro L
    induction L with
    | nil =>
      intro _
      exact ⟨[], rfl, Expands.nil, by simp⟩
    | cons t rest ihL =>
      intro hL
      obtain ⟨tail, htail, htexp, htleaf⟩ :=
        ihL (fun a ha => hL a (List.mem_cons_of_mem t ha))
      have ht := hL t (List.mem_cons_self t rest)
      rw [getExpandedTerms_succ] at htail
      rcases hnp : t.nested_policy_id with _ | pid
      · refine ⟨t :: tail, ?_, Expands.leaf hnp htexp, ?_⟩
        · rw [getExpandedTerms_succ]
          simp only [expandTermsAux, hnp, htail]
        · intro a ha
          rcases List.mem_cons.mp ha with ha | ha
          · exact ha ▸ hnp
          · exact htleaf a ha
      · rcases hfind : findPolicy db pid with _ | p
        · refine ⟨tail, ?_, Expands.nestedMissing hnp hfind htexp, htleaf⟩
          rw [getExpandedTerms_succ]
          simp only [expandTermsAux, hnp, hfind, htail]
        · have hqlt : rank p.id < f := by
            simp only [termRankOk, hnp, hfind, decide_eq_true_eq] at ht
            exact ht
          obtain ⟨f2, rfl⟩ : ∃ f2, f = f2 + 1 := ⟨f - 1, by omega⟩
          have hp := findPolicy_mem hfind
          have hpterms : ∀ a ∈ p.terms, termRankOk db rank f2 a = true := by
            intro a ha
            rcases hnp2 : a.nested_policy_id with _ | pid2
            · simp [termRankOk, hnp2]
            · rcases hfind2 : findPolicy db pid2 with _ | q
              · simp [termRankOk, hnp2, hfind2]
              · rw [checkRank, List.all_eq_true] at hrank
                have h1 := (List.all_eq_true.mp (hrank p hp)) a ha
                simp only [hnp2, hfind2, decide_eq_true_eq] at h1
                simp only [termRankOk, hnp2, hfind2, decide_eq_true_eq]
                omega
          obtain ⟨inner, hinner, hiexp, hileaf⟩ := ihf f2 (by omega) p.terms hpterms
          refine ⟨inner ++ tail, ?_, Expands.nested hnp hfind hiexp htexp, ?_⟩
          · rw [getExpandedTerms_succ]
            simp only [expandTermsAux, hnp, hfind, hinner, htail]
          · intro a ha
            rcases List.mem_append.mp ha with ha | ha
            · exact hileaf a ha
            · exact htleaf a ha

/-- C3 (amended): `get_expanded_terms` contains no cycle detection and no
`CycleDetected` failure; what holds is that on acyclic input — witnessed by
a rank function that strictly decreases along resolvable nested references —
the expansion terminates (with fuel one above the input rank bound) and
returns the inline-spliced flattened list, which contains only leaf terms.
On cyclic input it recurses forever instead of failing (see the
counterexample). -/
theorem c3_theorem (db : DB) (rank : Nat → Nat)
    (hrank : checkRank db rank = true)
    (B : Nat) (L : List PolicyTerm) (hL : L.all (termRankOk db rank B) = true) :
    ∃ res, getExpandedTerms db (B + 1) L = some res ∧ Expands db L res ∧
      ∀ t ∈ res, t.nested_policy_id = none :=
  expand_rank_terminates db rank hrank B L (fun t ht => List.all_eq_true.mp hL t ht)

/-- A database holding no rows, used as the base of the concrete examples. -/
def emptyDB : DB :=
  { networks := [], policies := [], dynamic_policies := [], tests := [], targets := [],
    deployers := [], revisions := [], deployments := [],
    next_revision_id := 1, next_deployment_id := 1 }

/-- A term of policy 1 whose nested policy is policy 1 itself: a one-step
cycle in the nested-policy graph. -/
def cycTerm : PolicyTerm :=
  { id := 1, policy_id := 1, name := "loop", enabled := true, action := .accept,
    logging := false, source_networks := [], destination_networks := [],
    source_services := [], destination_services := [],
    negate_source_networks := false, negate_destination_networks := false,
    nested_policy_id := some 1 }

def cycPolicy : Policy :=
  { id := 1, name := "P1", comment := none, terms := [cycTerm], tests := [], targets := [] }

/-- Database whose only policy nests itself. -/
def cycDB : DB := { emptyDB with policies := [cycPolicy] }

/-- The expansion never returns, at any recursion budget. -/
def ExpandDiverges (db : DB) (L : List PolicyTerm) : Prop :=
  ∀ fuel, getExpandedTerms db fuel L = none

/-- C3 counterexample: on the cyclic nested-policy graph of `cycDB` the
expansion of policy 1's terms diverges — it neither terminates nor produces
any `CycleDetected` failure (no such outcome exists in the code). -/
theorem c3_counterexample :
    (cycTerm.nested_policy_id = some cycPolicy.id ∧
     findPolicy cycDB cycPolicy.id = some cycPolicy ∧
     cycPolicy.terms = [cycTerm]) ∧
    ExpandDiverges cycDB [cycTerm] := by
  refine ⟨⟨rfl, rfl, rfl⟩, ?_⟩
  intro fuel
  induction fuel with
  | zero => rfl
  | succ n ih =>
    have h1 : cycTerm.nested_policy_id = some 1 := rfl
    have h2 : findPolicy cycDB 1 = some cycPolicy := rfl
    have h3 : cycPolicy.terms = [cycTerm] := rfl
    rw [getExpandedTerms_succ]
    simp only [expandTermsAux, h1, h2, h3, ih]

/-- Acyclic two-policy database for the C3 witness: policy 2 nests policy 3,
which has a single leaf term. -/
def leafTerm3 : PolicyTerm :=
  { id := 31, policy_id := 3, name := "leaf", enabled := true, action := .accept,
    logging := false, source_networks := [], destination_networks := [],
    source_services := [], destination_services := [],
    negate_source_networks := false, negate_destination_networks := false,
    nested_policy_id := none }

def nestTerm2 : PolicyTerm :=
  { id := 21, policy_id := 2, name := "use3", enabled := true, action := .accept,
    logging := false, source_networks := [], destination_networks := [],
    source_services := [], destination_services := [],
    negate_source_networks := false, negate_destination_networks := false,
    nested_policy_id := some 3 }

def acycPolicy3 : Policy :=
  { id := 3, name := "P3", comment := none, terms := [leafTerm3], tests := [], targets := [] }

def acycPolicy2 : Policy :=
  { id := 2, name := "P2", comment := none, terms := [nestTerm2], tests := [], targets := [] }

def acycDB : DB := { emptyDB with policies := [acycPolicy2, acycPolicy3] }

def c3rank : Nat → Nat := fun n => 5 - n

theorem c3_witness :
    (checkRank acycDB c3rank = true ∧
     acycPolicy2.terms.all (termRankOk acycDB c3rank 4) = true) ∧
    (∃ res, getExpandedTerms acycDB 5 acycPolicy2.terms = some res ∧
      Expands acycDB acycPolicy2.terms res ∧ ∀ t ∈ res, t.nested_policy_id = none) :=
  ⟨⟨by decide, by decide⟩,
   c3_theorem acycDB c3rank (by decide) 4 acycPolicy2.terms (by decide)⟩

/-! ## Dynamic-policy resolver (`core/utils/dynamic_policy_helpers.py`) -/

/-- Postgres inet `&&` (overlaps: contains or is contained by); distinct
address families never overlap. -/
def cidrOverlap (a b : IPNet) : Bool := subnetOf a b || subnetOf b a

/-- First query of `fetch_networks`: leaf `NetworkAddress` rows
(`nested_network_id IS NULL`) whose CIDR overlaps one of the filter
networks; an empty filter list matches no row. -/
def matchedLeafAddresses (db : DB) (filter_networks : List IPNet) : List NetworkAddress :=
  (allAddresses db).filter fun a =>
    a.nested_network_id.isNone &&
    (match a.address with
     | some ip => filter_networks.any (fun f => cidrOverlap ip f)
     | none => false)

/-- `fetch_nested_networks`: repeatedly collect the owners of
`NetworkAddress` rows whose `nested_network_id` is among the current ids.
The source recursion has no visited set, so a nested-network cycle makes it
recurse forever; the fuel bounds that recursion and `none` reports
exhaustion. -/
def fetchNestedNetworks (db : DB) : Nat → List Nat → List Nat → Option (List Nat)
  | 0, _, _ => none
  | fuel + 1, network_ids, acc =>
    let addresses := (allAddresses db).filter fun a =>
      match a.nested_network_id with
      | some nid => network_ids.contains nid
      | none => false
    if addresses.isEmpty then some acc.dedup
    else
      fetchNestedNetworks db fuel ((addresses.map (fun a => a.network_id)).dedup)
        (acc ++ addresses.map (fun a => a.network_id))

/-- `full_networks` of `fetch_networks`: owners of matched leaf addresses
all of whose address ids are among the matched address ids. -/
def fullNetworksOf (db : DB) (filter_networks : List IPNet) : List Network :=
  let network_addresses := matchedLeafAddresses db filter_networks
  let network_addresses_ids := network_addresses.map (fun a => a.id)
  let network_ids := (network_addresses.map (fun a => a.network_id)).dedup
  let networks := db.networks.filter (fun n => network_ids.contains n.id)
  networks.filter fun n =>
    (n.addresses.map (fun a => a.id)).all (fun i => network_addresses_ids.contains i)

/-- `full_nested_networks` of `fetch_networks`: networks among the nested
owners all of whose addresses are nested references into the already
selected ids (a leaf address contributes `None`, which is never among the
ids, exactly as in the source's `issubset` check). -/
def fullNestedNetworksOf (db : DB) (filter_networks : List IPNet)
    (nested_networks_ids : List Nat) : List Network :=
  let network_ids :=
    ((matchedLeafAddresses db filter_networks).map (fun a => a.network_id)).dedup
  let nested_networks := db.networks.filter (fun n => nested_networks_ids.contains n.id)
  nested_networks.filter fun n =>
    n.addresses.all fun a =>
      match a.nested_network_id with
      | some nid => (network_ids ++ nested_networks_ids).contains nid
      | none => false

/-- `fetch_networks`: the containment search of the dynamic resolver. -/
def fetchNetworks (db : DB) (filter_networks : List IPNet) (fuel : Nat) :
    Option (List Network) :=
  match fetchNestedNetworks db fuel
      ((fullNetworksOf db filter_networks).map (fun n => n.id)) [] with
  | none => none
  | some nested_networks_ids =>
    some (fullNetworksOf db filter_networks ++
      fullNestedNetworksOf db filter_networks nested_networks_ids)

/-- C5: every network selected by `fetch_networks` has all of its leaf
(non-nested) address ids among the address ids matched by the filter; a
network with any unmatched leaf address is never selected. -/
theorem c5_theorem (db : DB) (filter_networks : List IPNet) (fuel : Nat)
    (nets : List Network) (h : fetchNetworks db filter_networks fuel = some nets) :
    ∀ n ∈ nets, ∀ a ∈ n.addresses, a.nested_network_id = none →
      a.id ∈ (matchedLeafAddresses db filter_networks).map (fun x => x.id) := by
  intro n hn a ha hleaf
  rw [fetchNetworks] at h
  rcases hm : fetchNestedNetworks db fuel
      ((fullNetworksOf db filter_networks).map (fun x => x.id)) [] with _ | ids
  · rw [hm] at h
    exact absurd h (by simp)
  · rw [hm] at h
    have hnets : nets = fullNetworksOf db filter_networks ++
        fullNestedNetworksOf db filter_networks ids := by
      injection h with h2
      exact h2.symm
    subst hnets
    rcases List.mem_append.mp hn with hfull | hnested
    · rw [fullNetworksOf, List.mem_filter] at hfull
      have hall := hfull.2
      rw [List.all_eq_true] at hall
      have := hall a.id (List.mem_map.mpr ⟨a, ha, rfl⟩)
      simpa using this
    · rw [fullNestedNetworksOf, List.mem_filter] at hnested
      have hall := hnested.2
      rw [List.all_eq_true] at hall
      have := hall a ha
      rw [hleaf] at this
      exact absurd this (by simp)

/-- Concrete C5 witness data, following the worked example of the
specification: the filter CIDR is `10.0.0.0/16`; network X's two leaf
addresses `10.0.0.0/24` and `10.0.1.0/24` are both matched, network Y also
holds `192.168.0.0/24`, which is not. -/
def c5NetX : Network :=
  { id := 1, name := "X",
    addresses :=
      [{ id := 11, network_id := 1, address := some ⟨4, 167772160, 24⟩,
         comment := none, nested_network_id := none },
       { id := 12, network_id := 1, address := some ⟨4, 167772416, 24⟩,
         comment := none, nested_network_id := none }] }

def c5NetY : Network :=
  { id := 2, name := "Y",
    addresses :=
      [{ id := 21, network_id := 2, address := some ⟨4, 167772160, 24⟩,
         comment := none, nested_network_id := none },
       { id := 22, network_id := 2, address := some ⟨4, 3232235520, 24⟩,
         comment := none, nested_network_id := none }] }

def c5DB : DB := { emptyDB with networks := [c5NetX, c5NetY] }

def c5Filters : List IPNet := [⟨4, 167772160, 16⟩]

theorem c5_witness :
    fetchNetworks c5DB c5Filters 3 = some [c5NetX] ∧
    (∀ n ∈ [c5NetX], ∀ a ∈ n.addresses, a.nested_network_id = none →
      a.id ∈ (matchedLeafAddresses c5DB c5Filters).map (fun x => x.id)) :=
  ⟨by decide, c5_theorem c5DB c5Filters 3 [c5NetX] (by decide)⟩

/-! ## Term selection and customization (`fetch_terms`)

The SQL of `fetch_terms` outer-joins the source and destination network
association tables, takes DISTINCT terms, and keeps a term when each side
either satisfies the side condition on some association row or has no
association rows at all (`NOT EXISTS`).  Because the two outer joins form a
cross product of the term's association rows, the row-level conditions
reduce to the per-term predicates below. -/

/-- Source-side selection: "any" terms (no stored source networks) always
match; otherwise, with a non-empty filter, a non-negated term needs some
stored id inside the filter and a negated term some stored id outside it;
with an empty filter the `notin_` of an empty set is true on every row. -/
def sourceSideOk (source_network_ids : List Nat) (t : PolicyTerm) : Bool :=
  t.source_networks.isEmpty ||
  t.source_networks.any fun nid =>
    if source_network_ids.isEmpty then true
    else if t.negate_source_networks then !(source_network_ids.contains nid)
    else source_network_ids.contains nid

/-- Destination-side selection, symmetric to `sourceSideOk`. -/
def destSideOk (destination_network_ids : List Nat) (t : PolicyTerm) : Bool :=
  t.destination_networks.isEmpty ||
  t.destination_networks.any fun nid =>
    if destination_network_ids.isEmpty then true
    else if t.negate_destination_networks then !(destination_network_ids.contains nid)
    else destination_network_ids.contains nid

/-- The full WHERE clause of `fetch_terms`: both sides, the optional
policy-id restriction, and the optional action filter (`ilike` on the
lower-case enum value is equality). -/
def termSelected (source_network_ids destination_network_ids policy_ids : List Nat)
    (filter_action : Option PolicyAction) (t : PolicyTerm) : Bool :=
  sourceSideOk source_network_ids t && destSideOk destination_network_ids t &&
  (policy_ids.isEmpty || policy_ids.contains t.policy_id) &&
  (match filter_action with
   | none => true
   | some a => t.action == a)

/-- The `policy_terms` table in the order of the query's
`ORDER BY policy_id, lex_order` (policies are stored in id order and terms
in `lex_order`). -/
def allTermsTable (db : DB) : List PolicyTerm :=
  db.policies.flatMap (fun p => p.terms)

/-- The per-term customization loop of `fetch_terms` (run after
`db.expunge`, so the stored row is untouched): each non-"any" side whose
filter set is non-empty is intersected with the filter ids. -/
def customizeTerm (source_networks destination_networks : List Network)
    (source_network_ids destination_network_ids : List Nat)
    (term : PolicyTerm) : PolicyTerm :=
  if term.source_networks.isEmpty && term.destination_networks.isEmpty then
    term
  else if term.source_networks.isEmpty then
    if !destination_networks.isEmpty then
      { term with destination_networks :=
          term.destination_networks.filter (fun nid => destination_network_ids.contains nid) }
    else term
  else if !term.destination_networks.isEmpty then
    let term1 :=
      if !source_networks.isEmpty then
        { term with source_networks :=
            term.source_networks.filter (fun nid => source_network_ids.contains nid) }
      else term
    if !destination_networks.isEmpty then
      { term1 with destination_networks :=
          term1.destination_networks.filter (fun nid => destination_network_ids.contains nid) }
    else term1
  else
    if !source_networks.isEmpty then
      { term with source_networks :=
          term.source_networks.filter (fun nid => source_network_ids.contains nid) }
    else term

/-- `fetch_terms`: select, order, expunge and customize.  The returned
database is the unchanged input, reflecting that every selected term is
expunged from the session before being modified. -/
def fetchTerms (db : DB) (source_networks destination_networks : List Network)
    (policy_ids : List Nat) (filter_action : Option PolicyAction) :
    List PolicyTerm × DB :=
  let source_network_ids := source_networks.map (fun n => n.id)
  let destination_network_ids := destination_networks.map (fun n => n.id)
  let terms := (allTermsTable db).filter
    (termSelected source_network_ids destination_network_ids policy_ids filter_action)
  (terms.map
    (customizeTerm source_networks destination_networks
      source_network_ids destination_network_ids), db)

/-- The customization in closed form: each side is intersected exactly when
both the stored list and the filter list are non-empty. -/
theorem customizeTerm_eq (sN dN : List Network) (sIds dIds : List Nat) (t : PolicyTerm) :
    customizeTerm sN dN sIds dIds t =
      { t with
        source_networks :=
          if sN ≠ [] ∧ t.source_networks ≠ [] then
            t.source_networks.filter (fun nid => sIds.contains nid)
          else t.source_networks,
        destination_networks :=
          if dN ≠ [] ∧ t.destination_networks ≠ [] then
            t.destination_networks.filter (fun nid => dIds.contains nid)
          else t.destination_networks } := by
  obtain ⟨tid, tpid, tname, ten, tact, tlog, tsn, tdn, tss, tds, tg1, tg2, tnp⟩ := t
  by_cases hs : tsn = [] <;> by_cases hd : tdn = [] <;>
    by_cases hsn : sN = [] <;> by_cases hdn : dN = [] <;>
      simp [customizeTerm, hs, hd, hsn, hdn, List.isEmpty_iff]

/-- `fetch_terms` as *redefined* in `api/v1/revisions.py` (lines 150–257),
the copy `POST /revisions` uses for dynamic policies: the same selection
query as the helpers' resolver (identical outer joins and conditions), but
no expunge and no customization loop — the selected stored rows are
returned as they are. -/
def fetchTermsRevisions (db : DB) (source_networks destination_networks : List Network)
    (policy_ids : List Nat) (filter_action : Option PolicyAction) : List PolicyTerm :=
  (allTermsTable db).filter
    (termSelected (source_networks.map (fun n => n.id))
      (destination_networks.map (fun n => n.id)) policy_ids filter_action)

/-- C6 (amended: the two resolvers named `fetch_terms` differ — the
Stage-5 customization exists only in `dynamic_policy_helpers.fetch_terms`,
the copy `GET /run_tests` imports; the `fetch_terms` redefined in
`api/v1/revisions.py`, which `POST /revisions` uses for dynamic-policy
snapshots, performs no customization and returns the selected stored terms
with their network lists unmodified): every term returned by the helpers'
resolver is a copy of a stored selected term whose source (resp.
destination) list is intersected with the filter ids exactly when the
filter set and the stored list are both non-empty, other sides and fields
unchanged, and the store itself is returned unmodified (the expunge
semantics); every term returned by the revisions resolver is the stored
selected row itself, uncustomized. -/
theorem c6_theorem (db : DB) (source_networks destination_networks : List Network)
    (policy_ids : List Nat) (filter_action : Option PolicyAction) :
    (fetchTerms db source_networks destination_networks policy_ids filter_action).2 = db ∧
    (∀ t2 ∈ (fetchTerms db source_networks destination_networks policy_ids filter_action).1,
      ∃ t ∈ allTermsTable db,
        termSelected (source_networks.map (fun n => n.id))
          (destination_networks.map (fun n => n.id)) policy_ids filter_action t = true ∧
        t2 = { t with
          source_networks :=
            if source_networks ≠ [] ∧ t.source_networks ≠ [] then
              t.source_networks.filter
                (fun nid => (source_networks.map (fun n => n.id)).contains nid)
            else t.source_networks,
          destination_networks :=
            if destination_networks ≠ [] ∧ t.destination_networks ≠ [] then
              t.destination_networks.filter
                (fun nid => (destination_networks.map (fun n => n.id)).contains nid)
            else t.destination_networks }) ∧
    (∀ t2 ∈ fetchTermsRevisions db source_networks destination_networks
        policy_ids filter_action,
      t2 ∈ allTermsTable db ∧
      termSelected (source_networks.map (fun n => n.id))
        (destination_networks.map (fun n => n.id)) policy_ids filter_action t2 = true) := by
  refine ⟨rfl, ?_, ?_⟩
  · intro t2 ht2
    rw [fetchTerms] at ht2
    simp only [List.mem_map] at ht2
    obtain ⟨t, ht, hct⟩ := ht2
    rw [List.mem_filter] at ht
    exact ⟨t, ht.1, ht.2, by rw [← hct, customizeTerm_eq]⟩
  · intro t2 ht2
    rw [fetchTermsRevisions, List.mem_filter] at ht2
    exact ht2

/-- C6 counterexample data: term 51 of policy 13 has stored
`source_networks = [1, 2]`; the source filter resolves to network 1
only. -/
def c6Net1 : Network := { id := 1, name := "f1", addresses := [] }

def c6Term : PolicyTerm :=
  { id := 51, policy_id := 13, name := "t51", enabled := true, action := .accept,
    logging := false, source_networks := [1, 2], destination_networks := [],
    source_services := [], destination_services := [],
    negate_source_networks := false, negate_destination_networks := false,
    nested_policy_id := none }

def c6Policy : Policy :=
  { id := 13, name := "p13", comment := none, terms := [c6Term], tests := [], targets := [] }

def c6DB : DB := { emptyDB with policies := [c6Policy] }

/-- C6 counterexample: with a non-empty source filter set `{1}` and a term
whose stored source list `[1, 2]` is non-empty, the helpers' resolver
returns the intersected copy `[1]`, but the `fetch_terms` of
`api/v1/revisions.py` — the other resolver the claim cites — returns the
stored term with `source_networks = [1, 2]` unintersected. -/
theorem c6_counterexample :
    (fetchTerms c6DB [c6Net1] [] [] none).1 = [{ c6Term with source_networks := [1] }] ∧
    fetchTermsRevisions c6DB [c6Net1] [] [] none = [c6Term] ∧
    c6Term.source_networks = [1, 2] ∧
    ([1, 2] : List Nat) ≠ [1] :=
  ⟨by decide, by decide, by decide, by decide⟩

/-! ## Test runner (`core/utils/acl_test.py` and `GET /run_tests`,
`api/v1/tests.py`)

`acl_test.run_tests` is an `async def`.  The loop body of `get_tests_run`
(`tests.py` line 226) writes `match, matched_term = run_tests(policy_dict,
definitions, …)` — without `await`, and with the arguments shifted against
the signature `(db, policy, …)`.  Calling an async function only creates a
coroutine object, so the assignment unpacks that object into two names and
raises `TypeError: cannot unpack non-iterable coroutine object` at the
*first* test case iterated.  The body of `run_tests` (and with it
aerleon's `AclCheck`) never executes; it is embedded below (`runTests`)
as the dead collaborator it is, with the classifier as a parameter. -/

/-- One exact match reported by aerleon's `AclCheck`: the rendered term
name and its action. -/
structure AclMatch where
  action : PolicyAction
  term : String
deriving DecidableEq, Repr

/-- Errors surfaced by the embedded endpoints; `zeroDivision` is Python's
`ZeroDivisionError` and `typeError` Python's `TypeError` escaping the
handler. -/
inductive HttpError where
  | notFound (detail : String)
  | forbidden (detail : String)
  | badRequest (detail : String)
  | validationError (detail : String)
  | valueError (detail : String)
  | typeError (detail : String)
  | zeroDivision
deriving DecidableEq, Repr

deriving instance DecidableEq for Except

/-- `run_tests` (`core/utils/acl_test.py`): take the first exact match; if
its action equals the expected action, the case passes and the matched
stored term is the first expanded term whose `valid_name` the reported
term name starts with (possibly none); otherwise the case fails with no
matched term.  `GET /run_tests` never awaits this coroutine
(`tests.py` line 226), so the endpoint never actually runs it. -/
def runTests (db : DB) (check : List AclMatch) (terms : List PolicyTerm)
    (expected_action : PolicyAction) : Bool × Option PolicyTerm :=
  match check.head? with
  | none => (false, none)
  | some m =>
    if m.action = expected_action then
      (true, terms.find? (fun term => strStartsWith m.term (termValidName db term)))
    else (false, none)

/-- One element of the `tests` array of the `/run_tests` response (the
source dict `{"passed": …, "case": …, "matched_term": …}`; the `case` key
is named `testcase` here because `case` is reserved). -/
structure TestMatchEntry where
  passed : Bool
  testcase : TestCase
  matched_term : Option PolicyTerm
deriving DecidableEq, Repr

/-- The `/run_tests` response body. -/
structure TestRunResult where
  tests : List TestMatchEntry
  not_matched_terms : List PolicyTerm
  coverage : ℚ
deriving DecidableEq, Repr

/-- Python's `round(x, 4)` modelled exactly over the rationals:
round-half-to-even at four decimal places. -/
def pythonRound4 (q : ℚ) : ℚ :=
  let scaled := q * 10000
  let fl : ℤ := ⌊scaled⌋
  let frac := scaled - fl
  let r : ℤ :=
    if frac < 1 / 2 then fl
    else if 1 / 2 < frac then fl + 1
    else if fl % 2 = 0 then fl else fl + 1
  (r : ℚ) / 10000

/-- `round((m/n) * 10^4)` half-to-even, computed over the naturals. -/
def roundHalfEven4 (m n : Nat) : ℤ :=
  let p := m * 10000
  let fl : ℤ := (p / n : Nat)
  if 2 * (p % n) < n then fl
  else if n < 2 * (p % n) then fl + 1
  else if fl % 2 = 0 then fl else fl + 1

/-- The coverage value `round(float(m) / float(n), 4)` of `get_tests_run`,
as an exact rational (equal to `pythonRound4 (m / n)`, see
`pythonRound4Ratio_eq`). -/
def pythonRound4Ratio (m n : Nat) : ℚ :=
  mkRat (roundHalfEven4 m n) 10000

theorem pythonRound4Ratio_eq (m n : Nat) (hn : n ≠ 0) :
    pythonRound4Ratio m n = pythonRound4 ((m : ℚ) / (n : ℚ)) := by
  have hn0 : 0 < (n : ℚ) := by
    exact_mod_cast Nat.pos_of_ne_zero hn
  set p := m * 10000 with hp
  have hdm := Nat.div_add_mod p n
  have hmod := Nat.mod_lt p (Nat.pos_of_ne_zero hn)
  have hscaled : ((m : ℚ) / n) * 10000 = (p : ℚ) / n := by
    rw [hp]
    push_cast
    ring
  have hfl : ⌊((m : ℚ) / n) * 10000⌋ = ((p / n : ℕ) : ℤ) := by
    rw [hscaled, Int.floor_eq_iff]
    constructor
    · rw [le_div_iff₀ hn0]
      have hle : (p / n) * n ≤ p := Nat.div_mul_le_self p n
      push_cast
      exact_mod_cast hle
    · rw [div_lt_iff₀ hn0]
      have hmul : (p / n + 1) * n = n * (p / n) + n := by ring
      have hlt : p < (p / n + 1) * n := by omega
      push_cast
      exact_mod_cast hlt
  have hfrac : ((m : ℚ) / n) * 10000 - ((p / n : ℕ) : ℤ) = ((p % n : ℕ) : ℚ) / n := by
    rw [hscaled, eq_div_iff (ne_of_gt hn0), sub_mul, div_mul_cancel₀ _ (ne_of_gt hn0),
      Int.cast_natCast]
    have hq : ((p / n : ℕ) : ℚ) * (n : ℚ) + ((p % n : ℕ) : ℚ) = (p : ℚ) := by
      calc ((p / n : ℕ) : ℚ) * (n : ℚ) + ((p % n : ℕ) : ℚ)
          = ((n * (p / n) + p % n : ℕ) : ℚ) := by push_cast; ring
        _ = (p : ℚ) := by rw [hdm]
    linarith [hq]
  have hlt1 : (((p % n : ℕ) : ℚ) / n < 1 / 2) ↔ (2 * (p % n) < n) := by
    rw [div_lt_div_iff₀ hn0 (by norm_num : (0 : ℚ) < 2)]
    rw [show ((p % n : ℕ) : ℚ) * 2 = ((p % n * 2 : ℕ) : ℚ) from by push_cast; ring]
    rw [show (1 : ℚ) * n = ((n : ℕ) : ℚ) from by ring]
    rw [Nat.cast_lt]
    omega
  have hlt2 : ((1 : ℚ) / 2 < ((p % n : ℕ) : ℚ) / n) ↔ (n < 2 * (p % n)) := by
    rw [div_lt_div_iff₀ (by norm_num : (0 : ℚ) < 2) hn0]
    rw [show ((p % n : ℕ) : ℚ) * 2 = ((p % n * 2 : ℕ) : ℚ) from by push_cast; ring]
    rw [show (1 : ℚ) * n = ((n : ℕ) : ℚ) from by ring]
    rw [Nat.cast_lt]
    omega
  simp only [pythonRound4, pythonRound4Ratio, roundHalfEven4, Rat.mkRat_eq_div, hfl, hfrac]
  rw [← hp]
  by_cases h1 : 2 * (p % n) < n
  · rw [if_pos h1, if_pos (hlt1.mpr h1)]
    norm_num
  · rw [if_neg h1, if_neg (fun hc => h1 (hlt1.mp hc))]
    by_cases h2 : n < 2 * (p % n)
    · rw [if_pos h2, if_pos (hlt2.mpr h2)]
      norm_num
    · rw [if_neg h2, if_neg (fun hc => h2 (hlt2.mp hc))]
      by_cases h3 : ((p / n : ℕ) : ℤ) % 2 = 0
      · rw [if_pos h3]
        norm_num
      · rw [if_neg h3]
        norm_num

/-- `pythonRound4Ratio 0 n = 0` for positive `n` (the coverage the
endpoint computes when no test case executed). -/
theorem pythonRound4Ratio_zero (n : Nat) (hn : 0 < n) : pythonRound4Ratio 0 n = 0 := by
  have h1 : roundHalfEven4 0 n = 0 := by
    simp [roundHalfEven4, Nat.zero_mul, Nat.zero_mod, Nat.zero_div, hn]
  rw [pythonRound4Ratio, h1, Rat.mkRat_eq_div]
  norm_num

/-- Tail of `get_tests_run` (`api/v1/tests.py` lines 215–248), shared by
the policy and dynamic-policy branches.  The loop body assigns
`match, matched_term = run_tests(...)` *without awaiting* the async
`run_tests` (line 226), so it binds a coroutine object and unpacking it
raises `TypeError: cannot unpack non-iterable coroutine object` at the
first test case iterated.  Only when no test case exists does control
fall through (with `all_matches = []`) to the matched-id collection and
the coverage line, whose division has no zero guard. -/
def buildTestRunResult (tests : List Test) (expanded_terms : List PolicyTerm) :
    Except HttpError TestRunResult :=
  match tests.flatMap (fun t => t.cases) with
  | _ :: _ => .error (.typeError "cannot unpack non-iterable coroutine object")
  | [] =>
    let all_matches : List TestMatchEntry := []
    let matched_ids := all_matches.filterMap fun m => m.matched_term.map (fun t => t.id)
    let not_matched_terms := expanded_terms.filter (fun t => !(matched_ids.contains t.id))
    if expanded_terms.length = 0 then .error .zeroDivision
    else .ok { tests := all_matches, not_matched_terms := not_matched_terms,
               coverage := pythonRound4Ratio matched_ids.dedup.length expanded_terms.length }

/-- `GET /run_tests?policy_id=…`. -/
def getTestsRunPolicy (db : DB) (policy_id : Nat) (fuel : Nat) :
    Option (Except HttpError TestRunResult) :=
  match findPolicy db policy_id with
  | none => some (.error (.notFound "Policy not found"))
  | some policy =>
    match getExpandedTerms db fuel policy.terms with
    | none => none
    | some expanded_terms =>
      some (buildTestRunResult (testsOf db policy.tests) expanded_terms)

/-- `fetch_addresses`: recursively collect leaf CIDRs of the given
networks, descending into nested references (no visited set; the fuel
bounds the recursion). -/
def fetchAddresses (db : DB) : Nat → List Nat → List IPNet → Option (List IPNet)
  | 0, _, _ => none
  | fuel + 1, network_ids, return_networks =>
    let nets := db.networks.filter (fun n => network_ids.contains n.id)
    let return2 := return_networks ++
      nets.flatMap (fun n => n.addresses.filterMap (fun a => a.address))
    let nested := nets.flatMap fun n => n.addresses.filterMap fun a =>
      match a.address with
      | some _ => none
      | none => some a.nested_network_id
    if nested.isEmpty then some return2.dedup
    else fetchAddresses db fuel (nested.filterMap id) return2

/-- The `select(Policy.id).where(Policy.id.in_(policy_filters_ids))` query
of the dynamic branch. -/
def dynPolicyIds (db : DB) (dp : DynamicPolicy) : List Nat :=
  (db.policies.filter (fun p => dp.policy_filters.contains p.id)).map (fun p => p.id)

/-- `GET /run_tests?dynamic_policy_id=…`: resolve the dynamic policy's
terms (filters → addresses → networks → terms, through the *helpers*
`fetch_terms`, which is the copy `tests.py` imports) and run the shared
tail. -/
def getTestsRunDynamic (db : DB) (dynamic_policy_id : Nat) (fuel : Nat) :
    Option (Except HttpError TestRunResult) :=
  match findDynamicPolicy db dynamic_policy_id with
  | none => some (.error (.notFound "Dynamic policy not found"))
  | some dp => do
    let source_addresses ←
      if dp.source_filters.isEmpty then pure [] else fetchAddresses db fuel dp.source_filters []
    let destination_addresses ←
      if dp.destination_filters.isEmpty then pure []
      else fetchAddresses db fuel dp.destination_filters []
    let source_networks ←
      if source_addresses.isEmpty then pure [] else fetchNetworks db source_addresses fuel
    let destination_networks ←
      if destination_addresses.isEmpty then pure []
      else fetchNetworks db destination_addresses fuel
    let expanded_terms :=
      (fetchTerms db source_networks destination_networks (dynPolicyIds db dp)
        dp.filter_action).1
    pure (buildTestRunResult (testsOf db dp.tests) expanded_terms)

/-- C10 (amended: the coverage division is indeed unguarded and
`ZeroDivisionError` is reachable at the public interface, but only when
the policy's or dynamic policy's tests yield *no* case — when any test
case exists, the un-awaited `run_tests` call at `tests.py` line 226 raises
`TypeError` first, before the division line is reached): with an empty
expanded term list, `GET /run_tests` raises `ZeroDivisionError` when no
test case executes, and `TypeError` when one does. -/
theorem c10_theorem (db : DB) :
    (∀ pid fuel policy, findPolicy db pid = some policy → policy.terms = [] →
      (testsOf db policy.tests).flatMap (fun t => t.cases) = [] → 1 ≤ fuel →
      getTestsRunPolicy db pid fuel = some (.error .zeroDivision)) ∧
    (∀ pid fuel policy, findPolicy db pid = some policy → policy.terms = [] →
      (testsOf db policy.tests).flatMap (fun t => t.cases) ≠ [] → 1 ≤ fuel →
      getTestsRunPolicy db pid fuel =
        some (.error (.typeError "cannot unpack non-iterable coroutine object"))) ∧
    (∀ did fuel dp, findDynamicPolicy db did = some dp →
      dp.source_filters = [] → dp.destination_filters = [] →
      (fetchTerms db [] [] (dynPolicyIds db dp) dp.filter_action).1 = [] →
      (testsOf db dp.tests).flatMap (fun t => t.cases) = [] →
      getTestsRunDynamic db did fuel = some (.error .zeroDivision)) := by
  refine ⟨?_, ?_, ?_⟩
  · intro pid fuel policy hfind hterms hcases hfuel
    obtain ⟨f, rfl⟩ : ∃ f, fuel = f + 1 := ⟨fuel - 1, by omega⟩
    have hexp : getExpandedTerms db (f + 1) ([] : List PolicyTerm) = some [] := rfl
    simp only [getTestsRunPolicy, hfind, hterms, hexp]
    simp [buildTestRunResult, hcases]
  · intro pid fuel policy hfind hterms hcases hfuel
    obtain ⟨f, rfl⟩ : ∃ f, fuel = f + 1 := ⟨fuel - 1, by omega⟩
    have hexp : getExpandedTerms db (f + 1) ([] : List PolicyTerm) = some [] := rfl
    obtain ⟨c, cs, hc⟩ : ∃ c cs,
        (testsOf db policy.tests).flatMap (fun t => t.cases) = c :: cs := by
      cases h : (testsOf db policy.tests).flatMap (fun t => t.cases) with
      | nil => exact absurd h hcases
      | cons c cs => exact ⟨c, cs, rfl⟩
    simp only [getTestsRunPolicy, hfind, hterms, hexp]
    simp [buildTestRunResult, hc]
  · intro did fuel dp hfind hsf hdf hempty hcases
    simp only [getTestsRunDynamic, hfind]
    simp [hsf, hdf, hempty, hcases, buildTestRunResult]

/-- Concrete C10 witness data: policy 5 has no terms; dynamic policy 6 has
no filters and the (empty) store yields no terms. -/
def c10Policy : Policy :=
  { id := 5, name := "empty", comment := none, terms := [], tests := [], targets := [] }

def c10DP : DynamicPolicy :=
  { id := 6, name := "dyn", edited := false, filter_action := none, default_action := none,
    source_filters := [], destination_filters := [], policy_filters := [],
    targets := [], tests := [] }

def c10DB : DB := { emptyDB with policies := [c10Policy], dynamic_policies := [c10DP] }

theorem c10_witness :
    (findPolicy c10DB 5 = some c10Policy ∧ c10Policy.terms = [] ∧
     (testsOf c10DB c10Policy.tests).flatMap (fun t => t.cases) = [] ∧
     findDynamicPolicy c10DB 6 = some c10DP) ∧
    getTestsRunPolicy c10DB 5 1 = some (.error .zeroDivision) ∧
    getTestsRunDynamic c10DB 6 1 = some (.error .zeroDivision) :=
  ⟨⟨by decide, rfl, by decide, by decide⟩,
   (c10_theorem c10DB).1 5 1 c10Policy (by decide) rfl (by decide) (by omega),
   (c10_theorem c10DB).2.2 6 1 c10DP (by decide) rfl rfl (by decide) (by decide)⟩

/-- C10 counterexample data: policy 15 has no terms but its test 8 has one
case, so the case loop runs before the division. -/
def c10CaseX : TestCase :=
  { id := 81, test_id := 8, name := "cx", expected_action := .accept,
    source_network := none, destination_network := none, source_port := none,
    destination_port := none, protocol := none }

def c10TestX : Test := { id := 8, name := "TX", cases := [c10CaseX] }

def c10PolicyX : Policy :=
  { id := 15, name := "emptyX", comment := none, terms := [], tests := [8], targets := [] }

def c10DBX : DB := { emptyDB with policies := [c10PolicyX], tests := [c10TestX] }

/-- C10 counterexample: policy 15's expanded term list is empty, yet the
request raises `TypeError` at the un-awaited `run_tests` call — its test
case executes before the division — not `ZeroDivisionError`, refuting the
claim's "for every policy … whose expanded term list is empty". -/
theorem c10_counterexample :
    findPolicy c10DBX 15 = some c10PolicyX ∧
    c10PolicyX.terms = [] ∧
    (testsOf c10DBX c10PolicyX.tests).flatMap (fun t => t.cases) = [c10CaseX] ∧
    getTestsRunPolicy c10DBX 15 1 =
      some (.error (.typeError "cannot unpack non-iterable coroutine object")) ∧
    getTestsRunPolicy c10DBX 15 1 ≠ some (.error .zeroDivision) := by
  exact ⟨by decide, by decide, by decide, by decide, by decide⟩

/-- Specification-side notion for C8: ids of the terms matched by passing
test cases. -/
def passingMatchedIds (entries : List TestMatchEntry) : List Nat :=
  entries.filterMap fun m => if m.passed then m.matched_term.map (fun t => t.id) else none

/-- C8 (amended: `GET /run_tests` never produces per-case results — the
loop body at `tests.py` line 226 assigns the *un-awaited* coroutine of the
async `run_tests` to two names, raising `TypeError` at the first test
case.  For a policy with at least one expanded term the endpoint therefore
returns a response only when the policy's tests contain no case at all;
that response has an empty `tests` array, lists every expanded term as
unmatched, and its coverage is `round(0/n, 4) = 0.0` — which degenerately
equals the claimed distinct-matched ratio, rounded.  With any test case
present the request crashes before any matching or coverage
computation). -/
theorem c8_theorem (db : DB) (pid fuel : Nat) (policy : Policy)
    (expanded : List PolicyTerm)
    (hfind : findPolicy db pid = some policy)
    (hexp : getExpandedTerms db fuel policy.terms = some expanded)
    (hne : expanded ≠ []) :
    ((testsOf db policy.tests).flatMap (fun t => t.cases) ≠ [] →
      getTestsRunPolicy db pid fuel =
        some (.error (.typeError "cannot unpack non-iterable coroutine object"))) ∧
    ((testsOf db policy.tests).flatMap (fun t => t.cases) = [] →
      ∃ r, getTestsRunPolicy db pid fuel = some (.ok r) ∧
        r.tests = [] ∧
        r.coverage = pythonRound4
          (((passingMatchedIds r.tests).dedup.length : ℚ) / (expanded.length : ℚ)) ∧
        r.coverage = 0 ∧
        r.not_matched_terms =
          expanded.filter (fun t => !((passingMatchedIds r.tests).contains t.id)) ∧
        r.not_matched_terms = expanded) := by
  have hlen : ¬ expanded.length = 0 := by
    simpa [List.length_eq_zero] using hne
  constructor
  · intro hcases
    obtain ⟨c, cs, hc⟩ : ∃ c cs,
        (testsOf db policy.tests).flatMap (fun t => t.cases) = c :: cs := by
      cases h : (testsOf db policy.tests).flatMap (fun t => t.cases) with
      | nil => exact absurd h hcases
      | cons c cs => exact ⟨c, cs, rfl⟩
    simp only [getTestsRunPolicy, hfind, hexp]
    simp [buildTestRunResult, hc]
  · intro hcases
    have hfilter : expanded.filter (fun t => !(([] : List Nat).contains t.id)) = expanded := by
      simp
    have hbuild : buildTestRunResult (testsOf db policy.tests) expanded =
        .ok { tests := [], not_matched_terms := expanded,
              coverage := pythonRound4Ratio 0 expanded.length } := by
      simp only [buildTestRunResult, hcases]
      rw [if_neg hlen]
      simp [hfilter]
    refine ⟨{ tests := [], not_matched_terms := expanded,
              coverage := pythonRound4Ratio 0 expanded.length },
      ?_, rfl, ?_, ?_, ?_, rfl⟩
    · simp only [getTestsRunPolicy, hfind, hexp, hbuild]
    · exact pythonRound4Ratio_eq 0 expanded.length hlen
    · exact pythonRound4Ratio_zero expanded.length (Nat.pos_of_ne_zero hlen)
    · exact hfilter.symm

/-- C8 data: policy 7 has three leaf terms; its test 9 has two cases, so
the case loop runs (and crashes) on any `/run_tests` request for it. -/
def c8TermA : PolicyTerm :=
  { id := 71, policy_id := 7, name := "a", enabled := true, action := .accept,
    logging := false, source_networks := [], destination_networks := [],
    source_services := [], destination_services := [],
    negate_source_networks := false, negate_destination_networks := false,
    nested_policy_id := none }

def c8TermB : PolicyTerm := { c8TermA with id := 72, name := "b" }

def c8TermC : PolicyTerm := { c8TermA with id := 73, name := "c" }

def c8Policy : Policy :=
  { id := 7, name := "P", comment := none, terms := [c8TermA, c8TermB, c8TermC],
    tests := [9], targets := [] }

def c8Case1 : TestCase :=
  { id := 91, test_id := 9, name := "case1", expected_action := .accept,
    source_network := none, destination_network := none, source_port := none,
    destination_port := none, protocol := none }

def c8Case2 : TestCase := { c8Case1 with id := 92, name := "case2" }

def c8Test : Test := { id := 9, name := "T", cases := [c8Case1, c8Case2] }

def c8DB : DB := { emptyDB with policies := [c8Policy], tests := [c8Test] }

/-- C8 counterexample: policy 7 has three expanded terms and two test
cases, so the claim demands a `{tests, not_matched_terms, coverage}`
result with the distinct-matched coverage — but the endpoint raises
`TypeError` at the first case's un-awaited `run_tests` call and returns no
result at all. -/
theorem c8_counterexample :
    findPolicy c8DB 7 = some c8Policy ∧
    getExpandedTerms c8DB 2 c8Policy.terms = some [c8TermA, c8TermB, c8TermC] ∧
    ([c8TermA, c8TermB, c8TermC] : List PolicyTerm) ≠ [] ∧
    (testsOf c8DB c8Policy.tests).flatMap (fun t => t.cases) = [c8Case1, c8Case2] ∧
    getTestsRunPolicy c8DB 7 2 =
      some (.error (.typeError "cannot unpack non-iterable coroutine object")) :=
  ⟨by decide, by decide, by decide, by decide, by decide⟩

theorem c8_witness :
    (findPolicy c8DB 7 = some c8Policy ∧
     getExpandedTerms c8DB 2 c8Policy.terms = some [c8TermA, c8TermB, c8TermC] ∧
     ([c8TermA, c8TermB, c8TermC] : List PolicyTerm) ≠ []) ∧
    (((testsOf c8DB c8Policy.tests).flatMap (fun t => t.cases) ≠ [] →
      getTestsRunPolicy c8DB 7 2 =
        some (.error (.typeError "cannot unpack non-iterable coroutine object"))) ∧
     ((testsOf c8DB c8Policy.tests).flatMap (fun t => t.cases) = [] →
      ∃ r, getTestsRunPolicy c8DB 7 2 = some (.ok r) ∧
        r.tests = [] ∧
        r.coverage = pythonRound4
          (((passingMatchedIds r.tests).dedup.length : ℚ) /
            (([c8TermA, c8TermB, c8TermC] : List PolicyTerm).length : ℚ)) ∧
        r.coverage = 0 ∧
        r.not_matched_terms = ([c8TermA, c8TermB, c8TermC] : List PolicyTerm).filter
          (fun t => !((passingMatchedIds r.tests).contains t.id)) ∧
        r.not_matched_terms = [c8TermA, c8TermB, c8TermC])) :=
  ⟨⟨by decide, by decide, by decide⟩,
   c8_theorem c8DB 7 2 c8Policy [c8TermA, c8TermB, c8TermC]
     (by decide) (by decide) (by decide)⟩

/-! ## `PUT /networks/{network_id}` and edit propagation (C2)

`register_events` (`core/events.py`) is `pass`: its `after_flush` listener
is commented out and `handle_network` is never called from anywhere, so no
mutation commit touches any `edited` flag.  The `Policy` model
(`models/policy.py`) does not even have an `edited` column — only
`DynamicPolicy` does.  The network update endpoint therefore leaves the
`policies` and `dynamic_policies` tables exactly as they were. -/

/-- `NetworkUpdate` body (`schemas/network.py`): the updatable column of
the `Network` row itself is `name`.  (The optional `addresses` payload is
not a plain column and is outside the verified path.) -/
structure NetworkUpdate where
  name : String
deriving DecidableEq, Repr

/-- `PUT /networks/{network_id}` (`api/v1/networks.py`, `put_network`):
look the network up (404 if absent), reject a name collision with a
different network (validation error), then `network_crud.update` sets the
row's `name` and commits.  No event listener runs on the commit. -/
def putNetwork (db : DB) (network_id : Nat) (values : NetworkUpdate) :
    DB × Except HttpError Network :=
  match findNetwork db network_id with
  | none => (db, .error (.notFound "Network not found"))
  | some network =>
    if db.networks.any (fun n => n.name == values.name && !(n.id == network_id)) then
      (db, .error (.validationError "A network with this name already exists"))
    else
      let updated := { network with name := values.name }
      ({ db with networks :=
          db.networks.map (fun n => if n.id == network_id then updated else n) },
       .ok updated)

/-- C2 (amended: there is no edit propagation — `register_events` is a
no-op, `handle_network` is dead code, and the `Policy` model has no
`edited` column at all): committing a `PUT /networks/{id}` mutation leaves
the `policies` and `dynamic_policies` tables untouched whatever the
outcome; in particular no referencing policy or dynamic policy acquires
`edited = true`. -/
theorem c2_theorem (db : DB) (network_id : Nat) (values : NetworkUpdate) :
    (putNetwork db network_id values).1.policies = db.policies ∧
    (putNetwork db network_id values).1.dynamic_policies = db.dynamic_policies := by
  unfold putNetwork
  cases hf : findNetwork db network_id with
  | none => exact ⟨rfl, rfl⟩
  | some network =>
    by_cases h : db.networks.any (fun n => n.name == values.name && !(n.id == network_id))
    · simp [h]
    · simp [h]

/-- C2 counterexample data: network 1 is referenced by dynamic policy 7
(through `source_filters`) and by policy 9's term 21 (through
`source_networks`); dynamic policy 7 starts with `edited = false`. -/
def c2Net : Network := { id := 1, name := "n1", addresses := [] }

def c2Term : PolicyTerm :=
  { id := 21, policy_id := 9, name := "t", enabled := true, action := .accept,
    logging := false, source_networks := [1], destination_networks := [],
    source_services := [], destination_services := [],
    negate_source_networks := false, negate_destination_networks := false,
    nested_policy_id := none }

def c2Policy : Policy :=
  { id := 9, name := "p9", comment := none, terms := [c2Term], tests := [], targets := [] }

def c2DP : DynamicPolicy :=
  { id := 7, name := "d7", edited := false, filter_action := none, default_action := none,
    source_filters := [1], destination_filters := [], policy_filters := [],
    targets := [], tests := [] }

def c2DB : DB :=
  { emptyDB with networks := [c2Net], policies := [c2Policy], dynamic_policies := [c2DP] }

/-- C2 counterexample: renaming network 1 succeeds and commits, network 1
is referenced by policy 9's term and by dynamic policy 7's source filter,
yet after the commit dynamic policy 7 still has `edited = false` (and the
`Policy` table, which has no `edited` column to set, is unchanged). -/
theorem c2_counterexample :
    (putNetwork c2DB 1 ⟨"renamed"⟩).2 = .ok { c2Net with name := "renamed" } ∧
    c2Term.source_networks.contains 1 = true ∧
    c2DP.source_filters.contains 1 = true ∧
    (putNetwork c2DB 1 ⟨"renamed"⟩).1.policies = [c2Policy] ∧
    (∀ dp ∈ (putNetwork c2DB 1 ⟨"renamed"⟩).1.dynamic_policies, dp.edited = false) := by
  exact ⟨by decide, by decide, by decide, by decide, by decide⟩

/-! ## `POST /revisions/{id}/deploy` (C7) -/

/-- The `function_map` dict of `deploy_revision`
(`api/v1/revisions.py`). -/
def functionMap : DeployerMode → String
  | .git => "deploy_git"
  | .netmiko => "deploy_netmiko"
  | .proxmox_nft => "deploy_proxmox_nft"

/-- One `queue.pool.enqueue_job` call: the worker function name, the arq
job id and the keyword payload. -/
structure Job where
  function : String
  job_id : Nat
  revision_id : Nat
  deployer_id : Nat
  deployment_id : Nat
deriving DecidableEq, Repr

/-- `deployer_crud.get_all(db, filter_by={"target_id": target_id})`. -/
def deployersFor (db : DB) (target_id : Nat) : List Deployer :=
  db.deployers.filter (fun d => d.target_id == target_id)

/-- Body of the inner `for deployer in deployers` loop of
`deploy_revision`: insert a `Deployment` row with status `"pending"`
(committed immediately, so its id is the next sequence value), enqueue the
worker job selected by `function_map` from the deployer's mode with the
deployment id as arq job id, and record the deployment id. -/
def deployStep (rid : Nat) (st : DB × List Job × List Nat) (deployer : Deployer) :
    DB × List Job × List Nat :=
  let db := st.1
  let did := db.next_deployment_id
  let deployment : Deployment :=
    { id := did, deployer_id := deployer.id, revision_id := rid, status := .pending }
  ({ db with deployments := db.deployments ++ [deployment],
             next_deployment_id := did + 1 },
   st.2.1 ++ [{ function := functionMap deployer.mode, job_id := did,
                revision_id := rid, deployer_id := deployer.id, deployment_id := did }],
   st.2.2 ++ [did])

/-- `POST /revisions/{id}/deploy` (`deploy_revision`): 404 on a missing
revision; otherwise, for each config's `target_id` in order, for each
deployer with that `target_id`, run `deployStep`; answer 404 if no
deployment id was collected, else return the collected ids.  (The loop
never mutates the `deployers` table, so the per-target query reads the
request's store.) -/
def deployRevision (db : DB) (id : Nat) : DB × List Job × Except HttpError (List Nat) :=
  match findRevision db id with
  | none => (db, [], .error (.notFound "Revision not found"))
  | some revision =>
    let target_ids := revision.configs.map (fun c => c.target_id)
    let st := target_ids.foldl
      (fun st tid => (deployersFor db tid).foldl (deployStep id) st) (db, [], [])
    if st.2.2.isEmpty then
      (st.1, st.2.1, .error (.notFound "No associated deployers found for this revision"))
    else (st.1, st.2.1, .ok st.2.2)

/-- The (config target, deployer) pairs of a revision, flattened in loop
order: for each config's target, every deployer bound to that target. -/
def deployPairs (db : DB) (revision : Revision) : List Deployer :=
  (revision.configs.map (fun c => c.target_id)).flatMap (deployersFor db)

/-- Closed form of the deployment rows the dispatch loop inserts for the
listed deployers, with ids allocated sequentially from `start`. -/
def deploymentsSpec (rid start : Nat) : List Deployer → List Deployment
  | [] => []
  | d :: ds =>
    { id := start, deployer_id := d.id, revision_id := rid, status := .pending } ::
      deploymentsSpec rid (start + 1) ds

/-- Closed form of the jobs the dispatch loop enqueues. -/
def jobsSpec (rid start : Nat) : List Deployer → List Job
  | [] => []
  | d :: ds =>
    { function := functionMap d.mode, job_id := start, revision_id := rid,
      deployer_id := d.id, deployment_id := start } :: jobsSpec rid (start + 1) ds

/-- Closed form of the collected deployment ids. -/
def idsSpec (start : Nat) : List Deployer → List Nat
  | [] => []
  | _ :: ds => start :: idsSpec (start + 1) ds

theorem deploymentsSpec_append (rid start : Nat) (a b : List Deployer) :
    deploymentsSpec rid start (a ++ b) =
      deploymentsSpec rid start a ++ deploymentsSpec rid (start + a.length) b := by
  induction a generalizing start with
  | nil => simp [deploymentsSpec]
  | cons d a ih =>
    simp [deploymentsSpec, ih, Nat.add_comm, Nat.add_left_comm, Nat.add_assoc]

theorem jobsSpec_append (rid start : Nat) (a b : List Deployer) :
    jobsSpec rid start (a ++ b) =
      jobsSpec rid start a ++ jobsSpec rid (start + a.length) b := by
  induction a generalizing start with
  | nil => simp [jobsSpec]
  | cons d a ih =>
    simp [jobsSpec, ih, Nat.add_comm, Nat.add_left_comm, Nat.add_assoc]

theorem idsSpec_append (start : Nat) (a b : List Deployer) :
    idsSpec start (a ++ b) = idsSpec start a ++ idsSpec (start + a.length) b := by
  induction a generalizing start with
  | nil => simp [idsSpec]
  | cons d a ih =>
    simp [idsSpec, ih, Nat.add_comm, Nat.add_left_comm, Nat.add_assoc]

theorem deploymentsSpec_length (rid start : Nat) (ds : List Deployer) :
    (deploymentsSpec rid start ds).length = ds.length := by
  induction ds generalizing start with
  | nil => rfl
  | cons d ds ih => simp [deploymentsSpec, ih]

theorem jobsSpec_length (rid start : Nat) (ds : List Deployer) :
    (jobsSpec rid start ds).length = ds.length := by
  induction ds generalizing start with
  | nil => rfl
  | cons d ds ih => simp [jobsSpec, ih]

theorem idsSpec_length (start : Nat) (ds : List Deployer) :
    (idsSpec start ds).length = ds.length := by
  induction ds generalizing start with
  | nil => rfl
  | cons d ds ih => simp [idsSpec, ih]

theorem deploymentsSpec_mem (rid start : Nat) (ds : List Deployer) :
    ∀ d ∈ deploymentsSpec rid start ds, d.status = .pending ∧ d.revision_id = rid := by
  induction ds generalizing start with
  | nil => intro d hd; cases hd
  | cons a ds ih =>
    intro d hd
    rcases List.mem_cons.mp hd with rfl | hd
    · exact ⟨rfl, rfl⟩
    · exact ih (start + 1) d hd

theorem jobsSpec_mem (rid start : Nat) (ds : List Deployer) :
    ∀ j ∈ jobsSpec rid start ds,
      ∃ d ∈ ds, j.function = functionMap d.mode ∧ j.deployer_id = d.id ∧
        j.revision_id = rid ∧ j.job_id = j.deployment_id := by
  induction ds generalizing start with
  | nil => intro j hj; cases hj
  | cons a ds ih =>
    intro j hj
    rcases List.mem_cons.mp hj with rfl | hj
    · exact ⟨a, List.mem_cons_self _ _, rfl, rfl, rfl, rfl⟩
    · obtain ⟨d, hd, h⟩ := ih (start + 1) j hj
      exact ⟨d, List.mem_cons_of_mem _ hd, h⟩

/-- The inner fold over one deployer list, in closed form. -/
theorem deployStep_fold (rid : Nat) (ds : List Deployer) (db : DB)
    (jobs : List Job) (ids : List Nat) :
    ds.foldl (deployStep rid) (db, jobs, ids) =
      ({ db with
           deployments := db.deployments ++ deploymentsSpec rid db.next_deployment_id ds,
           next_deployment_id := db.next_deployment_id + ds.length },
       jobs ++ jobsSpec rid db.next_deployment_id ds,
       ids ++ idsSpec db.next_deployment_id ds) := by
  induction ds generalizing db jobs ids with
  | nil => simp [deploymentsSpec, jobsSpec, idsSpec]
  | cons d ds ih =>
    rw [List.foldl_cons]
    have hstep : deployStep rid (db, jobs, ids) d =
        ({ db with
             deployments := db.deployments ++
               [{ id := db.next_deployment_id, deployer_id := d.id, revision_id := rid,
                  status := .pending }],
             next_deployment_id := db.next_deployment_id + 1 },
         jobs ++ [{ function := functionMap d.mode, job_id := db.next_deployment_id,
                    revision_id := rid, deployer_id := d.id,
                    deployment_id := db.next_deployment_id }],
         ids ++ [db.next_deployment_id]) := rfl
    rw [hstep, ih]
    simp [deploymentsSpec, jobsSpec, idsSpec, List.append_assoc,
      Nat.add_comm, Nat.add_left_comm, Nat.add_assoc]

/-- The outer fold over the config targets, in closed form over the
flattened pair list. -/
theorem deployOuter_fold (rid : Nat) (db0 : DB) (tids : List Nat) (db : DB)
    (jobs : List Job) (ids : List Nat) :
    tids.foldl (fun st tid => (deployersFor db0 tid).foldl (deployStep rid) st)
        (db, jobs, ids) =
      ({ db with
           deployments := db.deployments ++
             deploymentsSpec rid db.next_deployment_id (tids.flatMap (deployersFor db0)),
           next_deployment_id :=
             db.next_deployment_id + (tids.flatMap (deployersFor db0)).length },
       jobs ++ jobsSpec rid db.next_deployment_id (tids.flatMap (deployersFor db0)),
       ids ++ idsSpec db.next_deployment_id (tids.flatMap (deployersFor db0))) := by
  induction tids generalizing db jobs ids with
  | nil => simp [deploymentsSpec, jobsSpec, idsSpec]
  | cons tid tids ih =>
    rw [List.foldl_cons, deployStep_fold, ih]
    simp [List.flatMap_cons, deploymentsSpec_append, jobsSpec_append, idsSpec_append,
      List.append_assoc, List.length_append, Nat.add_assoc]

theorem idsSpec_eq_nil (start : Nat) (ds : List Deployer) :
    idsSpec start ds = [] ↔ ds = [] := by
  cases ds <;> simp [idsSpec]

/-- C7 (confirmed): `POST /revisions/{id}/deploy` inserts, per pair of a
revision config's target and a deployer bound to that target, exactly one
new `Deployment` row with status `pending` (ids allocated sequentially)
and enqueues exactly one job whose function is the deployer's mode mapped
through `function_map`; it answers 404 `No associated deployers found`
exactly when no such pair exists, and otherwise returns the created
deployment ids. -/
theorem c7_theorem (db : DB) (id : Nat) (revision : Revision)
    (hfind : findRevision db id = some revision) :
    ((deployRevision db id).1.deployments =
        db.deployments ++ deploymentsSpec id db.next_deployment_id (deployPairs db revision)) ∧
    ((deployRevision db id).2.1 =
        jobsSpec id db.next_deployment_id (deployPairs db revision)) ∧
    ((deployRevision db id).2.2 =
        .error (.notFound "No associated deployers found for this revision") ↔
      deployPairs db revision = []) ∧
    (deployPairs db revision ≠ [] →
      (deployRevision db id).2.2 = .ok (idsSpec db.next_deployment_id (deployPairs db revision))) ∧
    (deploymentsSpec id db.next_deployment_id (deployPairs db revision)).length =
        (deployPairs db revision).length ∧
    (jobsSpec id db.next_deployment_id (deployPairs db revision)).length =
        (deployPairs db revision).length ∧
    (∀ d ∈ deploymentsSpec id db.next_deployment_id (deployPairs db revision),
        d.status = .pending ∧ d.revision_id = id) ∧
    (∀ j ∈ jobsSpec id db.next_deployment_id (deployPairs db revision),
        ∃ dep ∈ deployPairs db revision, j.function = functionMap dep.mode ∧
          j.deployer_id = dep.id ∧ j.revision_id = id ∧ j.job_id = j.deployment_id) := by
  have hfold := deployOuter_fold id db (revision.configs.map (fun c => c.target_id)) db [] []
  have hpairs : (revision.configs.map (fun c => c.target_id)).flatMap (deployersFor db) =
      deployPairs db revision := rfl
  rw [hpairs] at hfold
  simp only [deployRevision, hfind, hfold, List.nil_append]
  by_cases hp : deployPairs db revision = []
  · rw [hp]
    simp [deploymentsSpec, jobsSpec, idsSpec]
  · have hne : ¬ (idsSpec db.next_deployment_id (deployPairs db revision)).isEmpty := by
      rw [List.isEmpty_iff]
      exact fun h => hp ((idsSpec_eq_nil _ _).mp h)
    rw [if_neg hne]
    refine ⟨rfl, rfl, ?_, fun _ => rfl, deploymentsSpec_length _ _ _,
      jobsSpec_length _ _ _, deploymentsSpec_mem _ _ _, jobsSpec_mem _ _ _⟩
    constructor
    · intro h; cases h
    · intro h; exact absurd h hp

/-- C7 witness data: revision 3 has configs for targets 1 and 2; deployers
31 (git) and 32 (netmiko) are bound to target 1, deployer 33 (proxmox_nft)
to target 2 — three pairs, hence three deployments and three jobs. -/
def c7T1 : Target := { id := 1, name := "T1" }

def c7T2 : Target := { id := 2, name := "T2" }

def c7D1 : Deployer := { id := 31, name := "D1", mode := .git, target_id := 1 }

def c7D2 : Deployer := { id := 32, name := "D2", mode := .netmiko, target_id := 1 }

def c7D3 : Deployer := { id := 33, name := "D3", mode := .proxmox_nft, target_id := 2 }

def c7Rev : Revision :=
  { id := 3, comment := none, policy_id := some 9, dynamic_policy_id := none,
    expanded_terms := [],
    configs := [{ revision_id := 3, target_id := 1, filter_name := "f", config := "c" },
                { revision_id := 3, target_id := 2, filter_name := "f", config := "c" }] }

def c7DB : DB :=
  { emptyDB with targets := [c7T1, c7T2], deployers := [c7D1, c7D2, c7D3],
                 revisions := [c7Rev] }

theorem c7_witness :
    (findRevision c7DB 3 = some c7Rev ∧ deployPairs c7DB c7Rev = [c7D1, c7D2, c7D3] ∧
     (deployRevision c7DB 3).2.2 = .ok [1, 2, 3]) ∧
    (((deployRevision c7DB 3).1.deployments =
        c7DB.deployments ++ deploymentsSpec 3 c7DB.next_deployment_id (deployPairs c7DB c7Rev)) ∧
     ((deployRevision c7DB 3).2.1 =
        jobsSpec 3 c7DB.next_deployment_id (deployPairs c7DB c7Rev)) ∧
     ((deployRevision c7DB 3).2.2 =
        .error (.notFound "No associated deployers found for this revision") ↔
      deployPairs c7DB c7Rev = []) ∧
     (deployPairs c7DB c7Rev ≠ [] →
      (deployRevision c7DB 3).2.2 = .ok (idsSpec c7DB.next_deployment_id (deployPairs c7DB c7Rev))) ∧
     (deploymentsSpec 3 c7DB.next_deployment_id (deployPairs c7DB c7Rev)).length =
        (deployPairs c7DB c7Rev).length ∧
     (jobsSpec 3 c7DB.next_deployment_id (deployPairs c7DB c7Rev)).length =
        (deployPairs c7DB c7Rev).length ∧
     (∀ d ∈ deploymentsSpec 3 c7DB.next_deployment_id (deployPairs c7DB c7Rev),
        d.status = .pending ∧ d.revision_id = 3) ∧
     (∀ j ∈ jobsSpec 3 c7DB.next_deployment_id (deployPairs c7DB c7Rev),
        ∃ dep ∈ deployPairs c7DB c7Rev, j.function = functionMap dep.mode ∧
          j.deployer_id = dep.id ∧ j.revision_id = 3 ∧ j.job_id = j.deployment_id)) :=
  ⟨⟨by decide, by decide, by decide⟩, c7_theorem c7DB 3 c7Rev (by decide)⟩

/-! ## `POST /revisions` (C1)

`write_revision` (`api/v1/revisions.py`) contains no coverage computation
and never consults the tests tables: the policy branch only looks the
policy up (404) and expands its terms, then `revision_crud.create` commits
the revision row *before* the per-target config loop runs.  That loop then
unpacks three names from `generate_acl_from_policy`, which returns a
2-tuple `(config, filter_name)` — an uncaught `ValueError` on any policy
with targets, raised after the revision is already committed.  The
embedding mirrors exactly this: commit first, then either finish (no
targets) or surface the unpack `ValueError`. -/

/-- `PolicyRevisionCreate` body (`schemas/revision.py`). -/
structure PolicyRevisionCreate where
  policy_id : Nat
  comment : Option String
deriving DecidableEq, Repr

/-- The policy branch of `POST /revisions` (`write_revision`): 404 if the
policy is missing; expand its terms (`get_expanded_terms`, fuel-bounded as
in `getExpandedTerms`); `revision_crud.create` inserts and commits the
revision row; then the target loop either never runs (no targets) or dies
unpacking the generator's 2-tuple into three names. -/
def writeRevisionPolicy (db : DB) (values : PolicyRevisionCreate) (fuel : Nat) :
    Option (DB × Except HttpError Revision) :=
  match findPolicy db values.policy_id with
  | none => some (db, .error (.notFound "Policy not found"))
  | some policy =>
    match getExpandedTerms db fuel policy.terms with
    | none => none
    | some expanded_terms =>
      let rid := db.next_revision_id
      let revision : Revision :=
        { id := rid, comment := values.comment, policy_id := some policy.id,
          dynamic_policy_id := none, expanded_terms := expanded_terms, configs := [] }
      let db2 := { db with revisions := db.revisions ++ [revision],
                           next_revision_id := rid + 1 }
      match db.targets.filter (fun t => policy.targets.contains t.id) with
      | [] => some (db2, .ok revision)
      | _ :: _ => some (db2, .error (.valueError "not enough values to unpack"))

/-- `expandTermsAux` reads the store only through `findPolicy`, so it is
invariant under any change that keeps the `policies` table. -/
theorem expandTermsAux_policies_congr (db1 db2 : DB) (h : db1.policies = db2.policies)
    (f : List PolicyTerm → Option (List PolicyTerm)) :
    ∀ terms, expandTermsAux db1 f terms = expandTermsAux db2 f terms := by
  have hfp : findPolicy db1 = findPolicy db2 := by
    funext pid
    unfold findPolicy
    rw [h]
  intro terms
  induction terms with
  | nil => rfl
  | cons t rest ih =>
    simp only [expandTermsAux, hfp, ih]

/-- `get_expanded_terms` depends only on the `policies` table. -/
theorem getExpandedTerms_policies_congr (db1 db2 : DB) (h : db1.policies = db2.policies)
    (fuel : Nat) : ∀ terms, getExpandedTerms db1 fuel terms = getExpandedTerms db2 fuel terms := by
  induction fuel with
  | zero => intro terms; rfl
  | succ f ih =>
    intro terms
    rw [getExpandedTerms_succ, getExpandedTerms_succ,
      expandTermsAux_policies_congr db1 db2 h]
    have hrec : getExpandedTerms db1 f = getExpandedTerms db2 f := funext ih
    rw [hrec]

/-- C1 (amended: there is no coverage gate — `write_revision` never runs
the test runner, and the revision row is committed by
`revision_crud.create` before the config loop, so it is persisted whenever
the policy exists and expansion succeeds, whatever the policy's tests or
coverage; no `InsufficientCoverage` outcome exists, the only failure after
the commit being the config loop's tuple-unpack `ValueError`): the
endpoint appends exactly one revision snapshotting the expanded terms, and
its behaviour is unchanged under any replacement of the store that keeps
the `policies` and `targets` tables and the id sequence — in particular
under any change to the `tests` table. -/
theorem c1_theorem (db : DB) (values : PolicyRevisionCreate) (fuel : Nat)
    (policy : Policy) (expanded : List PolicyTerm)
    (hfind : findPolicy db values.policy_id = some policy)
    (hexp : getExpandedTerms db fuel policy.terms = some expanded) :
    ∃ revision res,
      revision.policy_id = some policy.id ∧
      revision.expanded_terms = expanded ∧
      revision.id = db.next_revision_id ∧
      (∀ e, res = Except.error e → e = .valueError "not enough values to unpack") ∧
      writeRevisionPolicy db values fuel = some
        ({ db with revisions := db.revisions ++ [revision],
                   next_revision_id := db.next_revision_id + 1 }, res) ∧
      (∀ db2 : DB, db2.policies = db.policies → db2.targets = db.targets →
        db2.next_revision_id = db.next_revision_id →
        writeRevisionPolicy db2 values fuel = some
          ({ db2 with revisions := db2.revisions ++ [revision],
                      next_revision_id := db2.next_revision_id + 1 }, res)) := by
  refine ⟨{ id := db.next_revision_id, comment := values.comment,
            policy_id := some policy.id, dynamic_policy_id := none,
            expanded_terms := expanded, configs := [] },
    match db.targets.filter (fun t => policy.targets.contains t.id) with
    | [] => Except.ok { id := db.next_revision_id, comment := values.comment,
                        policy_id := some policy.id, dynamic_policy_id := none,
                        expanded_terms := expanded, configs := [] }
    | _ :: _ => Except.error (.valueError "not enough values to unpack"),
    rfl, rfl, rfl, ?_, ?_, ?_⟩
  · intro e he
    cases htg : db.targets.filter (fun t => policy.targets.contains t.id) with
    | nil => rw [htg] at he; cases he
    | cons a l => rw [htg] at he; cases he; rfl
  · cases htg : db.targets.filter (fun t => policy.targets.contains t.id) with
    | nil => simp only [writeRevisionPolicy, hfind, hexp, htg]
    | cons a l => simp only [writeRevisionPolicy, hfind, hexp, htg]
  · intro db2 hpol htgt hnri
    have hfp : findPolicy db2 values.policy_id = some policy := by
      unfold findPolicy at hfind ⊢
      rw [hpol]
      exact hfind
    have hge : getExpandedTerms db2 fuel policy.terms = some expanded := by
      rw [getExpandedTerms_policies_congr db2 db hpol, hexp]
    cases htg : db.targets.filter (fun t => policy.targets.contains t.id) with
    | nil => simp only [writeRevisionPolicy, hfp, hge, htgt, hnri, htg]
    | cons a l => simp only [writeRevisionPolicy, hfp, hge, htgt, hnri, htg]

/-- C1 counterexample data: policy 11 has one leaf term, no targets and no
tests, so the test runner reports coverage 0. -/
def c1Term : PolicyTerm :=
  { id := 41, policy_id := 11, name := "only", enabled := true, action := .accept,
    logging := false, source_networks := [], destination_networks := [],
    source_services := [], destination_services := [],
    negate_source_networks := false, negate_destination_networks := false,
    nested_policy_id := none }

def c1Policy : Policy :=
  { id := 11, name := "Pol", comment := none, terms := [c1Term], tests := [], targets := [] }

def c1DB : DB := { emptyDB with policies := [c1Policy] }

/-- The revision `POST /revisions` commits for policy 11. -/
def c1Rev : Revision :=
  { id := 1, comment := none, policy_id := some 11, dynamic_policy_id := none,
    expanded_terms := [c1Term], configs := [] }

/-- The `/run_tests` result for policy 11: no test case, so no term is
covered. -/
def c1Run : TestRunResult :=
  { tests := [], not_matched_terms := [c1Term], coverage := pythonRound4Ratio 0 1 }

/-- C1 counterexample: the test runner computes coverage `0 < 1.0` for
policy 11, yet `POST /revisions` persists revision 1 for it and succeeds —
no `InsufficientCoverage` rejection exists. -/
theorem c1_counterexample :
    getTestsRunPolicy c1DB 11 2 = some (.ok c1Run) ∧
    c1Run.coverage = 0 ∧
    c1Run.coverage < 1 ∧
    writeRevisionPolicy c1DB ⟨11, none⟩ 2 =
      some ({ c1DB with revisions := [c1Rev], next_revision_id := 2 }, .ok c1Rev) ∧
    findRevision { c1DB with revisions := [c1Rev], next_revision_id := 2 } 1 = some c1Rev := by
  exact ⟨by decide, by decide, by decide, by decide, by decide⟩

theorem c1_witness :
    (findPolicy c1DB 11 = some c1Policy ∧
     getExpandedTerms c1DB 2 c1Policy.terms = some [c1Term]) ∧
    (∃ revision res,
      revision.policy_id = some c1Policy.id ∧
      revision.expanded_terms = [c1Term] ∧
      revision.id = c1DB.next_revision_id ∧
      (∀ e, res = Except.error e → e = .valueError "not enough values to unpack") ∧
      writeRevisionPolicy c1DB ⟨11, none⟩ 2 = some
        ({ c1DB with revisions := c1DB.revisions ++ [revision],
                     next_revision_id := c1DB.next_revision_id + 1 }, res) ∧
      (∀ db2 : DB, db2.policies = c1DB.policies → db2.targets = c1DB.targets →
        db2.next_revision_id = c1DB.next_revision_id →
        writeRevisionPolicy db2 ⟨11, none⟩ 2 = some
          ({ db2 with revisions := db2.revisions ++ [revision],
                      next_revision_id := db2.next_revision_id + 1 }, res))) :=
  ⟨⟨by decide, by decide⟩,
   c1_theorem c1DB ⟨11, none⟩ 2 c1Policy [c1Term] (by decide) (by decide)⟩

/-! ## `Base.hashed_name` (C9)

`core/db/database.py` builds
`hash_string = f"{cls.__name__}:" + ",".join(map(str, primary_keys))` and
returns `str(abs(hash(hash_string)))`.  Python's `hash` on `str` is
SipHash-1-3 (CPython ≥ 3.11, `sys.hash_info.algorithm == "siphash13"`)
keyed by the per-process `_Py_HashSecret`, which hash randomization draws
afresh on every interpreter start unless `PYTHONHASHSEED` pins it.  The
embedding makes the two 64-bit key halves `k0, k1` explicit parameters;
one program run is one fixed key pair, two runs are (in general) two
different pairs.  With `PYTHONHASHSEED=0` both halves are zero, which
gives the concrete reference value checked below against CPython 3.11. -/

def M64 : Nat := 2 ^ 64

def add64 (a b : Nat) : Nat := (a + b) % M64

def xor64 (a b : Nat) : Nat := Nat.xor a b

def rotl64 (a s : Nat) : Nat := ((a <<< s) % M64) ||| (a >>> (64 - s))

/-- `SINGLE_ROUND` of CPython's `pyhash.c` (two `HALF_ROUND`s). -/
def sipRound : Nat × Nat × Nat × Nat → Nat × Nat × Nat × Nat := fun st =>
  let v0 := add64 st.1 st.2.1
  let v2 := add64 st.2.2.1 st.2.2.2
  let v1 := xor64 (rotl64 st.2.1 13) v0
  let v3 := xor64 (rotl64 st.2.2.2 16) v2
  let v0 := rotl64 v0 32
  let v2 := add64 v2 v1
  let v0 := add64 v0 v3
  let v1 := xor64 (rotl64 v1 17) v2
  let v3 := xor64 (rotl64 v3 21) v0
  let v2 := rotl64 v2 32
  (v0, v1, v2, v3)

/-- Little-endian byte-list decoding (`_le64toh` of a loaded block). -/
def leBytes (bs : List Nat) : Nat := bs.foldr (fun b acc => b + 256 * acc) 0

/-- The main block loop of `pysiphash`: consume full 8-byte blocks,
returning the state and the trailing partial block. -/
def sipLoop (st : Nat × Nat × Nat × Nat) :
    List Nat → (Nat × Nat × Nat × Nat) × List Nat
  | b0 :: b1 :: b2 :: b3 :: b4 :: b5 :: b6 :: b7 :: rest =>
    let mi := leBytes [b0, b1, b2, b3, b4, b5, b6, b7]
    let st2 := sipRound (st.1, st.2.1, st.2.2.1, xor64 st.2.2.2 mi)
    sipLoop (xor64 st2.1 mi, st2.2.1, st2.2.2.1, st2.2.2.2) rest
  | rest => (st, rest)

/-- CPython's `pysiphash` with 1 compression round and 3 finalization
rounds (SipHash-1-3), on a byte list, all words mod `2^64`. -/
def sipHash13 (k0 k1 : Nat) (data : List Nat) : Nat :=
  let k0 := k0 % M64
  let k1 := k1 % M64
  let b0 := (data.length % 256) <<< 56
  let v0 := xor64 k0 0x736f6d6570736575
  let v1 := xor64 k1 0x646f72616e646f6d
  let v2 := xor64 k0 0x6c7967656e657261
  let v3 := xor64 k1 0x7465646279746573
  let sr := sipLoop (v0, v1, v2, v3) data
  let b := b0 ||| leBytes sr.2
  let st := sr.1
  let st2 := sipRound (st.1, st.2.1, st.2.2.1, xor64 st.2.2.2 b)
  let st3 := (xor64 st2.1 b, st2.2.1, xor64 st2.2.2.1 0xff, st2.2.2.2)
  let st4 := sipRound (sipRound (sipRound st3))
  xor64 (xor64 st4.1 st4.2.1) (xor64 st4.2.2.1 st4.2.2.2)

/-- The bytes CPython hashes for an ASCII string (the UTF-8 buffer). -/
def strBytes (s : String) : List Nat := s.data.map Char.toNat

/-- Reinterpret an unsigned 64-bit word as a signed `Py_hash_t`. -/
def signed64 (x : Nat) : ℤ := if x < 2 ^ 63 then (x : ℤ) else (x : ℤ) - 2 ^ 64

/-- `hash(s)` for an ASCII `str` (`_Py_HashBytes`): the empty string
hashes to `0`; otherwise the SipHash-1-3 digest as a signed 64-bit value,
with `-1` replaced by `-2`. -/
def pyHashStr (k0 k1 : Nat) (s : String) : ℤ :=
  if s.data.isEmpty then 0
  else
    let h := signed64 (sipHash13 k0 k1 (strBytes s))
    if h = -1 then -2 else h

/-- `",".join(map(str, primary_keys))`. -/
def joinComma : List String → String
  | [] => ""
  | [s] => s
  | s :: rest => s ++ "," ++ joinComma rest

/-- The deterministic string representation `f"{cls}:" + ",".join(...)`
hashed by `Base.hashed_name`. -/
def hashString (cls : String) (pks : List Nat) : String :=
  cls ++ ":" ++ joinComma (pks.map (fun k => Nat.repr k))

/-- `Base.hashed_name`: `str(abs(hash(hash_string)))`, with the process
hash key `(k0, k1)` explicit. -/
def hashedName (k0 k1 : Nat) (cls : String) (pks : List Nat) : String :=
  Nat.repr (pyHashStr k0 k1 (hashString cls pks)).natAbs

/-- C9 (amended: the token is deterministic only *within* one interpreter
run — `hash()` on `str` is salted by the per-process SipHash key, so
separate runs produce different tokens for the same row): for one fixed
process key, any two entities whose class name and primary keys render to
the same hash string receive the same naming token, so identical objects
reused across terms resolve to identical tokens during one request or one
run. -/
theorem c9_theorem (k0 k1 : Nat) (cls cls' : String) (pks pks' : List Nat)
    (h : hashString cls pks = hashString cls' pks') :
    hashedName k0 k1 cls pks = hashedName k0 k1 cls' pks' := by
  unfold hashedName
  rw [h]

theorem c9_witness :
    hashString "Network" [1] = hashString "Network" [1] ∧
    hashedName 17 42 "Network" [1] = hashedName 17 42 "Network" [1] :=
  ⟨by decide, c9_theorem 17 42 "Network" "Network" [1] [1] (by decide)⟩

/-- C9 counterexample: the token of `Network` row 1 under the key of one
run (here `PYTHONHASHSEED=0`, both key halves zero — the first conjunct is
the value CPython 3.11 actually prints for
`str(abs(hash("Network:1")))`) differs from its token under another run's
key: `hashed_name` is not stable across runs of the program. -/
theorem c9_counterexample :
    hashedName 0 0 "Network" [1] = "6063454648244679811" ∧
    hashedName 1 0 "Network" [1] ≠ "6063454648244679811" ∧
    hashedName 1 0 "Network" [1] ≠ hashedName 0 0 "Network" [1] ∧
    hashString "Network" [1] = "Network:1" := by
  exact ⟨by decide, by decide, by decide, by decide⟩

end AclApi
